import Mathlib

/-!
Shallow embedding of the computational core of the `broken-wallet` repository
(`src/transactionBuilder.ts`, `src/addressDiscovery.ts`, `src/bitcoin.ts`),
together with theorems settling the frozen claims about it.

Modelling conventions:
* TypeScript `bigint` amounts become `ℤ`; Blockbook UTXO values (decimal
  strings fed to `BigInt`) become `ℕ`; the JavaScript `number` fee rate
  becomes `ℚ` (its exact rational value).
* `Number(someBigint)` — the conversion the builder performs when placing
  values into the PSBT (transactionBuilder.ts lines 204 and 227) — is modelled
  by `f64roundInt`, round-to-nearest-even onto 53-bit significands, which is
  exact exactly on integers of magnitude at most 2^53.
* Library primitives that the repository calls but does not implement
  (BIP32 derivation, secp256k1, hashing, bech32/base58 decoding, transaction
  serialization) are fields of an explicit `CryptoCtx` record and results of
  decoding are carried on the `Addr` type; every function of the repository
  itself is translated statement by statement.
* Thrown `Error`s become `Except` errors; each constructor of `BuildError`
  is annotated with the thrown message it stands for.
-/

namespace BrokenWallet

/-- Model of `AddressEncoding` of transactionBuilder.ts (and, identically,
`AddressFormat` of bitcoin.ts): the two script types the wallet knows. -/
inductive AddressEncoding
  | p2wpkh
  | p2pkh
deriving DecidableEq

/-- Model of `AddressType` of bitcoin.ts: the chain role of a derived address. -/
inductive AddressType
  | receive
  | change
deriving DecidableEq

/-- Result of a successful `bitcoin.address.fromBech32` call: human-readable
part, witness version and witness program bytes. -/
structure Bech32Decoded where
  hrp : String
  witnessVersion : ℕ
  data : List ℕ
deriving DecidableEq

/-- Result of a successful `bitcoin.address.fromBase58Check` call: version
byte and 20-byte hash payload. -/
structure Base58Decoded where
  version : ℕ
  hash : List ℕ
deriving DecidableEq

/-- An address string together with what the two library decoders return on
it: `none` models the decoder throwing (caught by the `try`/`catch` blocks of
`detectAddressType`). The `raw` field keeps the string identity. -/
structure Addr where
  raw : String
  bech32 : Option Bech32Decoded
  base58 : Option Base58Decoded
deriving DecidableEq

/-- Model of `bitcoin.networks.bitcoin.pubKeyHash` — the mainnet P2PKH version byte. -/
def btcPubKeyHashVersion : ℕ := 0

/-- Second `try` block of `detectAddressType` (transactionBuilder.ts
lines 76-85): accept base58check with the mainnet version byte as p2pkh. -/
def detectBase58 (address : Addr) : Option AddressEncoding :=
  match address.base58 with
  | some decoded =>
      if decoded.version = btcPubKeyHashVersion then some AddressEncoding.p2pkh
      else none
  | none => none

/-- Model of `detectAddressType` (transactionBuilder.ts lines 66-86). The bech32
branch accepts witness version 0 with a 20-byte program; note that the source
never inspects the decoded human-readable part, so it plays no role. -/
def detectAddressType (address : Addr) : Option AddressEncoding :=
  match address.bech32 with
  | some decoded =>
      if decoded.witnessVersion = 0 ∧ decoded.data.length = 20 then
        some AddressEncoding.p2wpkh
      else detectBase58 address
  | none => detectBase58 address

/-- Model of `estimateOutputWeight` (transactionBuilder.ts lines 88-90). -/
def estimateOutputWeight (t : AddressEncoding) : ℕ :=
  match t with
  | AddressEncoding.p2wpkh => 31
  | AddressEncoding.p2pkh => 34

/-- Model of `estimateInputWeight` (transactionBuilder.ts lines 92-94). -/
def estimateInputWeight (t : AddressEncoding) : ℕ :=
  match t with
  | AddressEncoding.p2wpkh => 68
  | AddressEncoding.p2pkh => 148

/-- A BIP32 account-level path (purpose, coin and account segments, all
hardened). Paths are modelled structurally rather than as strings. -/
structure AccountPath where
  purpose : ℕ
  coin : ℕ
  account : ℕ
deriving DecidableEq

/-- A fully qualified derivation path: account level plus chain and index. -/
structure DerivPath where
  account : AccountPath
  chain : ℕ
  index : ℕ
deriving DecidableEq

/-- Model of `ACCOUNT_PATH` of transactionBuilder.ts (the BIP84 bitcoin account). -/
def ACCOUNT_PATH : AccountPath := ⟨84, 0, 0⟩

/-- The observable part of an `HDKey` node as the builder uses it: key
material may be absent. Keys are abstract numbers. -/
structure HDNodeM where
  privateKey : Option ℕ
  publicKey : Option ℕ
deriving DecidableEq

/-- Value recorded as `witnessUtxo` on a PSBT input: previous output script
and its value as passed through `Number(...)`. -/
structure WitnessUtxoM where
  script : List ℕ
  value : ℤ
deriving DecidableEq

/-- One `bip32Derivation` record attached to a PSBT input. -/
structure Bip32DerivM where
  masterFingerprint : ℕ
  path : DerivPath
  pubkey : ℕ
deriving DecidableEq

/-- A PSBT input as assembled by the builder (lines 222-236). -/
structure PsbtInput where
  hash : String
  index : ℕ
  witnessUtxo : WitnessUtxoM
  bip32Derivation : List Bip32DerivM
deriving DecidableEq

/-- A PSBT output as assembled by the builder (lines 203-205); `value` is the
`Number(...)`-converted amount actually handed to the assembler. -/
structure PsbtOutput where
  address : Addr
  value : ℤ
deriving DecidableEq

/-- The finalized, extracted transaction: inputs, outputs and one signature
per input. Serialization, txid and virtual size are computed from it by the
crypto context. -/
structure FinalTx where
  ins : List PsbtInput
  outs : List PsbtOutput
  sigs : List ℕ
deriving DecidableEq

/-- Model of `TxOutputRequest` of transactionBuilder.ts. -/
structure TxOutputRequest where
  address : Addr
  amountSats : ℤ
deriving DecidableEq

/-- Model of `TxBuildResult` of transactionBuilder.ts. `effectiveFeeRate` is the
floating-point quotient `Number(feeSats) / vsize`, modelled exactly. -/
structure TxBuildResult where
  hex : String
  feeSats : ℤ
  vsize : ℕ
  txId : String
  totalInput : ℤ
  totalOutput : ℤ
  changeOutput : Option TxOutputRequest
  outputs : List TxOutputRequest
  effectiveFeeRate : ℚ
deriving DecidableEq

/-- Model of `BlockbookUtxo` of blockbookClient.ts, restricted to the fields the
builder reads (`confirmations`/`height` are never consulted). `hex` is the
optional raw previous-transaction hex. -/
structure BlockbookUtxo where
  txid : String
  vout : ℕ
  value : ℕ
  address : Option Addr
  path : Option DerivPath
  hex : Option String
deriving DecidableEq

/-- Model of `DerivedAddress` of bitcoin.ts. -/
structure DerivedAddress where
  address : Addr
  path : DerivPath
  publicKey : String
  type : AddressType
  format : AddressEncoding
  index : ℕ
deriving DecidableEq

/-- The thrown `Error`s of transactionBuilder.ts, one constructor per
`throw` site:
* `noInputs` — "Select at least one UTXO" (line 143)
* `noOutputsOrChange` — "Add at least one output or specify a change address" (line 147)
* `unsupportedOutput` — "Unsupported output address: ..." (line 158)
* `unsupportedChange` — "Change address must be p2pkh or p2wpkh" (line 169)
* `insufficientFunds` — "Selected inputs cannot cover outputs and fee" (line 184)
* `noValueRemaining` — "No value remains for change after fees" (line 190)
* `noOutputsToBuild` — "No outputs to build. ..." (line 195)
* `outputsExceedInputs` — "Outputs exceed selected input value" (line 200)
* `missingDerivationPath` — "No derivation path found for ..." (line 212)
* `missingKeyMaterial` — "Missing key material for ..." (line 217)
* `unsupportedAddressFormat` — "Unsupported address format: ..." (line 100)
* `onlySegwitSupported` — "Currently only native segwit UTXOs are supported
  for signing" (line 104)
* `paymentDerivationFailed` — "Failed to derive p2wpkh/p2pkh payment"
  (lines 110 and 117)
* `satoshiOutOfRange` — the TypeError thrown by `typeforce types.Satoshi`
  inside bitcoinjs-lib when a converted amount is not an integer in
  `[0, SATOSHI_MAX]`: by `Transaction.addOutput` for the output values the
  builder adds at line 204, and by `Transaction.hashForWitnessV0` for the
  `witnessUtxo` values when `signInputAsync` (line 242) computes the
  BIP143 signature hash. -/
inductive BuildError
  | noInputs
  | noOutputsOrChange
  | unsupportedOutput (a : Addr)
  | unsupportedChange
  | insufficientFunds
  | noValueRemaining
  | noOutputsToBuild
  | outputsExceedInputs
  | missingDerivationPath (a : Option Addr)
  | missingKeyMaterial (p : DerivPath)
  | unsupportedAddressFormat (a : Addr)
  | onlySegwitSupported
  | paymentDerivationFailed (t : AddressEncoding)
  | satoshiOutOfRange (v : ℤ)
deriving DecidableEq

/-- The cryptographic and encoding primitives the repository imports from
`@scure/bip32`, `@noble/secp256k1`, `@noble/hashes` and `bitcoinjs-lib`.
They are deterministic functions: in particular `sign` models
`secp256k1.sign` with the RFC6979 `hmacSha256Sync` nonce generator wired in
at module load (transactionBuilder.ts lines 15-22), so a signature is a
function of the private key and the message hash only. `p2wpkhAddr` and
`p2pkhAddr` bundle derivation at the BIP84 resp. BIP44 chain/index path,
`hash160` and address encoding as performed by bitcoin.ts. -/
structure CryptoCtx where
  validateMnemonic : String → Bool
  deriveNode : String → DerivPath → HDNodeM
  accountFingerprint : String → AccountPath → ℕ
  pubOf : ℕ → ℕ
  sign : ℕ → ℕ → ℕ
  p2wpkhScript : Addr → Option ℕ → Option (List ℕ)
  p2pkhScript : Addr → Option ℕ → Option (List ℕ)
  sighash : List PsbtInput → List PsbtOutput → ℕ → ℕ
  serializeTx : FinalTx → String
  txidOf : FinalTx → String
  vsizeOf : FinalTx → ℕ
  p2wpkhAddr : String → ℕ → ℕ → ℕ → Addr
  p2pkhAddr : String → ℕ → ℕ → ℕ → ℕ → Addr
  pubKeyHex : String → ℕ → ℕ → ℕ → ℕ → String
  zpubStr : String → ℕ → String
  xpubStr : String → ℕ → String

/-! ### Float64 rounding of integer amounts -/

/-- Number of binary digits of `n`, computed with explicit fuel so that it
reduces in the kernel. -/
def bitLenAux : ℕ → ℕ → ℕ
  | 0, _ => 0
  | fuel + 1, n => if n = 0 then 0 else bitLenAux fuel (n / 2) + 1

/-- Number of binary digits of `n` (`0` for `n = 0`). -/
def bitLen (n : ℕ) : ℕ := bitLenAux n n

/-- Rounding of `n` to a multiple of `2 ^ e` (round-to-nearest,
ties-to-even): the mantissa-truncation step of float64 conversion. -/
def roundMantissa (n e : ℕ) : ℕ :=
  if n % 2 ^ e < 2 ^ (e - 1) then n / 2 ^ e * 2 ^ e
  else if 2 ^ (e - 1) < n % 2 ^ e then (n / 2 ^ e + 1) * 2 ^ e
  else (if n / 2 ^ e % 2 = 0 then n / 2 ^ e else n / 2 ^ e + 1) * 2 ^ e

/-- Rounding of a natural number to the nearest IEEE-754 binary64 value
(round-to-nearest, ties-to-even), as performed by JavaScript `Number` on a
`bigint`. Integers of magnitude at most `2^53` are exactly representable and
unchanged; larger ones are rounded to a multiple of `2 ^ (bitLen n - 53)`. -/
def f64roundNat (n : ℕ) : ℕ :=
  if n ≤ 2 ^ 53 then n else roundMantissa n (bitLen n - 53)

/-- Model of `Number(z)` for a signed integer `z`. -/
def f64roundInt (z : ℤ) : ℤ :=
  if z < 0 then -(f64roundNat z.natAbs : ℤ) else (f64roundNat z.natAbs : ℤ)

/-- The `SATOSHI_MAX` constant of bitcoinjs-lib (`types.js`): `21 * 1e14`.
The `types.Satoshi` typeforce predicate accepts exactly the integer numbers
in `[0, SATOSHI_MAX]` (the `UInt53` bound `2^53 - 1` is larger and therefore
not the binding constraint). -/
def SATOSHI_MAX : ℕ := 2100000000000000

/-! ### The transaction builder (transactionBuilder.ts) -/

/-- The empty-string address: what `utxo.address ?? ''` supplies when a UTXO
carries no address. It fails both decoders. -/
def emptyAddr : Addr := ⟨"", none, none⟩

/-- Lookup in the caller-supplied `addressMap` (a JavaScript `Map` keyed by
address). -/
def lookupAddress (addressMap : List (Addr × DerivedAddress)) (a : Addr) :
    Option DerivedAddress :=
  (addressMap.find? (fun p => p.1 = a)).map (fun p => p.2)

/-- Lines 155-161: classify every requested output, throwing on the first
address that does not classify. -/
def classifyOutputs : List TxOutputRequest →
    Except BuildError (List (TxOutputRequest × AddressEncoding))
  | [] => Except.ok []
  | o :: rest =>
      match detectAddressType o.address with
      | none => Except.error (BuildError.unsupportedOutput o.address)
      | some t => (classifyOutputs rest).map (fun l => (o, t) :: l)

/-- Model of `reduce((sum, o) => sum + o.amountSats, 0n)` over a list of outputs. -/
def sumAmounts (l : List TxOutputRequest) : ℤ :=
  l.foldl (fun s o => s + o.amountSats) 0

/-- Model of `reduce((sum, utxo) => sum + BigInt(utxo.value), 0n)` (line 153). -/
def inputTotalOf (utxos : List BlockbookUtxo) : ℤ :=
  utxos.foldl (fun s u => s + (u.value : ℤ)) 0

/-- Lines 172-177: the pre-signing virtual-size estimate. Inputs whose
address fails to classify silently fall back to the p2wpkh weight. -/
def estimatedVsizeOf (utxos : List BlockbookUtxo)
    (outputWithTypes : List (TxOutputRequest × AddressEncoding))
    (changeType : AddressEncoding) : ℕ :=
  10 +
    (utxos.map (fun u => detectAddressType (u.address.getD emptyAddr))).foldl
      (fun total t => total + estimateInputWeight (t.getD AddressEncoding.p2wpkh)) 0 +
    outputWithTypes.foldl (fun total o => total + estimateOutputWeight o.2) 0 +
    estimateOutputWeight changeType

/-- Line 179: `BigInt(Math.ceil(estimatedVsize * feeRate))`, with the
floating-point product modelled as the exact rational product. -/
def feeEstimateOf (estimatedVsize : ℕ) (feeRate : ℚ) : ℤ :=
  Int.ceil ((estimatedVsize : ℚ) * feeRate)

/-- Line 181: `changeValue = inputTotal - targetOutputs - feeEstimate`. -/
def changeValueOf (inputTotal : ℤ) (outputs : List TxOutputRequest)
    (feeEstimate : ℤ) : ℤ :=
  inputTotal - sumAmounts outputs - feeEstimate

/-- Lines 194-201: the prospective-output emptiness check and the defensive
sum check, performed after the change block on every path. -/
def checkPlannedOutputs (prospectiveOutputs : List TxOutputRequest)
    (changeValue inputTotal : ℤ) :
    Except BuildError (List TxOutputRequest × ℤ) :=
  if prospectiveOutputs = [] then Except.error BuildError.noOutputsToBuild
  else if sumAmounts prospectiveOutputs > inputTotal then
    Except.error BuildError.outputsExceedInputs
  else Except.ok (prospectiveOutputs, changeValue)

/-- Lines 163-201: compute fee and change, extend the output list with a
change output when positive change remains, and run the invariant checks. -/
def planOutputs (utxos : List BlockbookUtxo) (outputs : List TxOutputRequest)
    (outputWithTypes : List (TxOutputRequest × AddressEncoding))
    (changeAddress : Option Addr) (feeRate : ℚ) (inputTotal : ℤ) :
    Except BuildError (List TxOutputRequest × ℤ) :=
  match changeAddress with
  | some ca =>
      match detectAddressType ca with
      | none => Except.error BuildError.unsupportedChange
      | some changeType =>
          let estimatedVsize := estimatedVsizeOf utxos outputWithTypes changeType
          let feeEstimate := feeEstimateOf estimatedVsize feeRate
          let changeValue := changeValueOf inputTotal outputs feeEstimate
          if changeValue < 0 then Except.error BuildError.insufficientFunds
          else if changeValue > 0 then
            checkPlannedOutputs (outputs ++ [⟨ca, changeValue⟩]) changeValue inputTotal
          else if outputs = [] then Except.error BuildError.noValueRemaining
          else checkPlannedOutputs outputs changeValue inputTotal
  | none => checkPlannedOutputs outputs 0 inputTotal

/-- Model of `type` and `payment.output` of a successful `buildPayments` call. -/
structure PaymentM where
  type : AddressEncoding
  output : List ℕ
deriving DecidableEq

/-- Model of `buildPayments` (transactionBuilder.ts lines 96-120). The guard at
line 103 rejects everything but p2wpkh, which makes the p2pkh branch at
lines 115-119 dead code; it is kept here to mirror the source. -/
def buildPayments (ctx : CryptoCtx) (address : Addr) (pubkey : Option ℕ) :
    Except BuildError PaymentM :=
  match detectAddressType address with
  | none => Except.error (BuildError.unsupportedAddressFormat address)
  | some t =>
      if t ≠ AddressEncoding.p2wpkh then Except.error BuildError.onlySegwitSupported
      else if t = AddressEncoding.p2wpkh then
        match ctx.p2wpkhScript address pubkey with
        | none => Except.error (BuildError.paymentDerivationFailed AddressEncoding.p2wpkh)
        | some out => Except.ok ⟨t, out⟩
      else
        match ctx.p2pkhScript address pubkey with
        | none => Except.error (BuildError.paymentDerivationFailed AddressEncoding.p2pkh)
        | some out => Except.ok ⟨t, out⟩

/-- Model of `createPsbtSigner` (lines 24-35): public key plus the RFC6979 signing
closure over the copied private key. -/
structure SignerM where
  publicKey : ℕ
  sign : ℕ → ℕ
deriving Inhabited

/-- Model of `createPsbtSigner` — the signature depends only on the private key and
the hash (deterministic RFC6979 nonce). -/
def createPsbtSigner (ctx : CryptoCtx) (privateKey : ℕ) : SignerM :=
  { publicKey := ctx.pubOf privateKey
    sign := fun hash => ctx.sign privateKey hash }

/-- Lines 215-238, the part of the per-UTXO loop body after the derivation
path has been resolved: derive the key node, check its key material, build
the p2wpkh payment and assemble the PSBT input and its signer. -/
def signUtxoInput (ctx : CryptoCtx) (mnemonic : String) (accountFp : ℕ)
    (utxo : BlockbookUtxo) (path : DerivPath) :
    Except BuildError (PsbtInput × SignerM) :=
  let node := ctx.deriveNode mnemonic path
  match node.privateKey, node.publicKey with
  | some priv, some pub =>
      (buildPayments ctx (utxo.address.getD emptyAddr) (some pub)).map
        (fun (payment : PaymentM) =>
          ({ hash := utxo.txid
             index := utxo.vout
             witnessUtxo := { script := payment.output
                              value := f64roundInt (utxo.value : ℤ) }
             bip32Derivation := [{ masterFingerprint := accountFp
                                   path := path
                                   pubkey := pub }] },
           createPsbtSigner ctx priv))
  | _, _ => Except.error (BuildError.missingKeyMaterial path)

/-- Lines 209-239, body of the per-UTXO loop: resolve the derivation path
(`utxo.path || addressMap.get(...)?.path`), then sign via `signUtxoInput`. -/
def processUtxo (ctx : CryptoCtx) (mnemonic : String) (accountFp : ℕ)
    (addressMap : List (Addr × DerivedAddress)) (utxo : BlockbookUtxo) :
    Except BuildError (PsbtInput × SignerM) :=
  let derivation : Option DerivPath :=
    match utxo.path with
    | some p => some p
    | none => (lookupAddress addressMap (utxo.address.getD emptyAddr)).map
        (fun d => d.path)
  match derivation with
  | none => Except.error (BuildError.missingDerivationPath utxo.address)
  | some path => signUtxoInput ctx mnemonic accountFp utxo path

/-- The `utxos.forEach` loop of lines 209-239, threading errors. -/
def processUtxos (ctx : CryptoCtx) (mnemonic : String) (accountFp : ℕ)
    (addressMap : List (Addr × DerivedAddress)) :
    List BlockbookUtxo → Except BuildError (List (PsbtInput × SignerM))
  | [] => Except.ok []
  | u :: rest =>
      match processUtxo ctx mnemonic accountFp addressMap u with
      | Except.error e => Except.error e
      | Except.ok pr =>
          match processUtxos ctx mnemonic accountFp addressMap rest with
          | Except.error e => Except.error e
          | Except.ok l => Except.ok (pr :: l)

/-- The `typeforce types.Satoshi` validation of bitcoinjs-lib: a converted
amount must be an integer in `[0, SATOSHI_MAX]` (integrality is automatic
here because `Number` of a `bigint` below the float64 overflow threshold is
always an integer, and an overflowed infinity fails the predicate just as
the model's huge rounded value exceeds `SATOSHI_MAX`). -/
def satoshiInRange (v : ℤ) : Prop := 0 ≤ v ∧ v ≤ (SATOSHI_MAX : ℤ)

instance (v : ℤ) : Decidable (satoshiInRange v) := by
  unfold satoshiInRange
  infer_instance

/-- Lines 203-205, `prospectiveOutputs.forEach(psbt.addOutput(...))`: each
output value is converted with `Number(...)` and validated by
`Transaction.addOutput` (typeforce `types.Satoshi`) inside the library;
the first out-of-range value throws. -/
def addPsbtOutputs : List TxOutputRequest → Except BuildError (List PsbtOutput)
  | [] => Except.ok []
  | o :: rest =>
      if satoshiInRange (f64roundInt o.amountSats) then
        (addPsbtOutputs rest).map
          (fun l => PsbtOutput.mk o.address (f64roundInt o.amountSats) :: l)
      else Except.error (BuildError.satoshiOutOfRange (f64roundInt o.amountSats))

/-- The `types.Satoshi` validation `Transaction.hashForWitnessV0` applies to
each input value when the inputs are signed in order (lines 241-243): the
first out-of-range `witnessUtxo` value throws. -/
def checkWitnessValues : List PsbtInput → Except BuildError Unit
  | [] => Except.ok ()
  | i :: rest =>
      if satoshiInRange i.witnessUtxo.value then checkWitnessValues rest
      else Except.error (BuildError.satoshiOutOfRange i.witnessUtxo.value)

/-- Model of `buildSignedTransaction` (lines 134-263), returning the externally
visible `TxBuildResult` together with the assembled transaction (which the
TypeScript function serializes away). The `entropy` argument models the
ambient randomness a randomized nonce scheme could draw on; no part of the
body reads it, because signing is deterministic RFC6979. -/
def buildSignedTransactionCore (ctx : CryptoCtx) (entropy : ℕ)
    (mnemonic : String) (utxos : List BlockbookUtxo)
    (outputs : List TxOutputRequest)
    (addressMap : List (Addr × DerivedAddress)) (changeAddress : Option Addr)
    (feeRate : ℚ) : Except BuildError (TxBuildResult × FinalTx) :=
  if utxos = [] then Except.error BuildError.noInputs
  else if outputs = [] ∧ changeAddress = none then
    Except.error BuildError.noOutputsOrChange
  else
    let accountFp := ctx.accountFingerprint mnemonic ACCOUNT_PATH
    let inputTotal := inputTotalOf utxos
    match classifyOutputs outputs with
    | Except.error e => Except.error e
    | Except.ok outputWithTypes =>
        match planOutputs utxos outputs outputWithTypes changeAddress feeRate
            inputTotal with
        | Except.error e => Except.error e
        | Except.ok plan =>
            let prospectiveOutputs := plan.1
            let changeValue := plan.2
            match addPsbtOutputs prospectiveOutputs with
            | Except.error e => Except.error e
            | Except.ok psbtOutputs =>
                match processUtxos ctx mnemonic accountFp addressMap utxos with
                | Except.error e => Except.error e
                | Except.ok inputData =>
                    let psbtInputs := inputData.map (fun pr => pr.1)
                    let signers := inputData.map (fun pr => pr.2)
                    match checkWitnessValues psbtInputs with
                    | Except.error e => Except.error e
                    | Except.ok _ =>
                        let sigs := signers.enum.map
                          (fun pr => pr.2.sign
                            (ctx.sighash psbtInputs psbtOutputs pr.1))
                        let tx : FinalTx := ⟨psbtInputs, psbtOutputs, sigs⟩
                        let totalOutput := sumAmounts prospectiveOutputs
                        let feeSats := inputTotal - totalOutput
                        let vsize := ctx.vsizeOf tx
                        Except.ok
                          ({ hex := ctx.serializeTx tx
                             feeSats := feeSats
                             vsize := vsize
                             txId := ctx.txidOf tx
                             totalInput := inputTotal
                             totalOutput := totalOutput
                             changeOutput :=
                               if changeValue > 0 then
                                 changeAddress.map (fun ca => ⟨ca, changeValue⟩)
                               else none
                             outputs := prospectiveOutputs
                             effectiveFeeRate :=
                               (feeSats : ℚ) / (vsize : ℚ) }, tx)

/-- The exported `buildSignedTransaction`: only the `TxBuildResult` is
visible to callers. -/
def buildSignedTransaction (ctx : CryptoCtx) (entropy : ℕ) (mnemonic : String)
    (utxos : List BlockbookUtxo) (outputs : List TxOutputRequest)
    (addressMap : List (Addr × DerivedAddress)) (changeAddress : Option Addr)
    (feeRate : ℚ) : Except BuildError TxBuildResult :=
  (buildSignedTransactionCore ctx entropy mnemonic utxos outputs addressMap
    changeAddress feeRate).map (fun p => p.1)

/-! ### Wallet derivation (bitcoin.ts) -/

/-- Model of `NetworkConfig` of bitcoin.ts; the two extended-key version byte sequences are
byte lists. -/
structure NetworkConfig where
  bech32Hrp : Option String
  p2pkhVersion : ℕ
  coinType : ℕ
  zpubVersion : Option (List ℕ)
  xpubVersion : List ℕ
deriving DecidableEq

/-- The `btc` entry of the `NETWORKS` table. -/
def btcConfig : NetworkConfig :=
  ⟨some "bc", 0, 0, some [4, 178, 71, 70], [4, 136, 178, 30]⟩

/-- The `NETWORKS` record of bitcoin.ts as a lookup function. -/
def NETWORKS (symbol : String) : Option NetworkConfig :=
  if symbol = "btc" then some btcConfig
  else if symbol = "ltc" then
    some ⟨some "ltc", 48, 2, some [4, 178, 71, 70], [4, 136, 178, 30]⟩
  else if symbol = "doge" then some ⟨none, 30, 3, none, [4, 136, 178, 30]⟩
  else if symbol = "dash" then some ⟨none, 76, 5, none, [4, 136, 178, 30]⟩
  else none

/-- The `segwitAccount` aggregate of a `WalletDerivation`. -/
structure SegwitAccount where
  zpub : String
  addresses : List DerivedAddress
deriving DecidableEq

/-- The `legacyAccount` aggregate of a `WalletDerivation`. -/
structure LegacyAccount where
  xpub : String
  addresses : List DerivedAddress
deriving DecidableEq

/-- Model of `WalletDerivation` of bitcoin.ts. -/
structure WalletDerivation where
  mnemonic : String
  segwitAccount : SegwitAccount
  legacyAccount : LegacyAccount
deriving DecidableEq

/-- Errors thrown by `deriveWalletFromMnemonic`: "Invalid mnemonic" and
"Unsupported network: ...". -/
inductive DeriveError
  | invalidMnemonic
  | unsupportedNetwork (symbol : String)
deriving DecidableEq

/-- Model of `deriveSegwitAddress` (bitcoin.ts lines 87-117): one BIP84
address at the chain/index position under the segwit account. Key hashing
and bech32 encoding are bundled in `ctx.p2wpkhAddr` (the throw on missing
public key / missing hrp is a library-level impossibility on the networks
that reach this function). -/
def deriveSegwitAddress (ctx : CryptoCtx) (mnemonic : String)
    (network : NetworkConfig) (chain index : ℕ) (type : AddressType) :
    DerivedAddress :=
  { address := ctx.p2wpkhAddr mnemonic network.coinType chain index
    path := ⟨⟨84, network.coinType, 0⟩, chain, index⟩
    publicKey := ctx.pubKeyHex mnemonic 84 network.coinType chain index
    type := type
    format := AddressEncoding.p2wpkh
    index := index }

/-- Model of `deriveLegacyAddress` (bitcoin.ts lines 119-145): one BIP44
address at the chain/index position under the legacy account. -/
def deriveLegacyAddress (ctx : CryptoCtx) (mnemonic : String)
    (network : NetworkConfig) (chain index : ℕ) (type : AddressType) :
    DerivedAddress :=
  { address := ctx.p2pkhAddr mnemonic network.coinType network.p2pkhVersion
      chain index
    path := ⟨⟨44, network.coinType, 0⟩, chain, index⟩
    publicKey := ctx.pubKeyHex mnemonic 44 network.coinType chain index
    type := type
    format := AddressEncoding.p2pkh
    index := index }

/-- The pure body of `deriveWalletFromMnemonic` (bitcoin.ts lines 178-228)
after validation: derive `receiveCount` chain-0 and `changeCount` chain-1
addresses for the segwit account (only when the network supports segwit,
otherwise the empty-account default of line 220) and for the legacy
account. -/
def deriveWalletPure (ctx : CryptoCtx) (mnemonic : String)
    (receiveCount changeCount : ℕ) (network : NetworkConfig) :
    WalletDerivation :=
  let segwitAccount : Option SegwitAccount :=
    if network.bech32Hrp.isSome ∧ network.zpubVersion.isSome then
      some { zpub := ctx.zpubStr mnemonic network.coinType
             addresses :=
               ((List.range receiveCount).map
                 (fun i => deriveSegwitAddress ctx mnemonic network 0 i
                   AddressType.receive)) ++
               ((List.range changeCount).map
                 (fun i => deriveSegwitAddress ctx mnemonic network 1 i
                   AddressType.change)) }
    else none
  { mnemonic := mnemonic
    segwitAccount := segwitAccount.getD ⟨"", []⟩
    legacyAccount :=
      { xpub := ctx.xpubStr mnemonic network.coinType
        addresses :=
          ((List.range receiveCount).map
            (fun i => deriveLegacyAddress ctx mnemonic network 0 i
              AddressType.receive)) ++
          ((List.range changeCount).map
            (fun i => deriveLegacyAddress ctx mnemonic network 1 i
              AddressType.change)) } }

/-- Model of `deriveWalletFromMnemonic` (bitcoin.ts lines 152-229) with explicit
receive/change counts, the form address discovery always uses (the
numeric-options backward-compatibility branch is therefore not exercised
here). -/
def deriveWalletFromMnemonic (ctx : CryptoCtx) (mnemonic : String)
    (receiveCount changeCount : ℕ) (networkSymbol : String) :
    Except DeriveError WalletDerivation :=
  if ctx.validateMnemonic mnemonic = false then
    Except.error DeriveError.invalidMnemonic
  else
    match NETWORKS networkSymbol with
    | none => Except.error (DeriveError.unsupportedNetwork networkSymbol)
    | some network =>
        Except.ok (deriveWalletPure ctx mnemonic receiveCount changeCount network)

/-! ### Address discovery (addressDiscovery.ts) -/

/-- A transaction input as consumed by discovery (`addresses`, `isOwn`);
the remaining Blockbook fields are never read by `findMaxUsedIndices`. -/
structure TransactionInputM where
  addresses : Option (List Addr)
  isOwn : Option Bool
deriving DecidableEq

/-- A transaction output as consumed by discovery. -/
structure TransactionOutputM where
  addresses : Option (List Addr)
  isOwn : Option Bool
deriving DecidableEq

/-- Model of `BlockbookTransaction` restricted to the fields discovery reads. -/
structure BlockbookTransactionM where
  txid : String
  vin : List TransactionInputM
  vout : List TransactionOutputM
deriving DecidableEq

/-- Model of `MaxIndices` of addressDiscovery.ts; `-1` means "no used address". -/
structure MaxIndices where
  segwitReceive : ℤ
  segwitChange : ℤ
  legacyReceive : ℤ
  legacyChange : ℤ
deriving DecidableEq

/-- Lookup in the `addressMap` built by `forEach`+`Map.set` (lines 27-30):
later entries overwrite earlier ones, so the lookup returns the last entry
with a matching address. -/
def mapGetLast (currentAddresses : List DerivedAddress) (a : Addr) :
    Option DerivedAddress :=
  currentAddresses.foldl
    (fun acc d => if d.address = a then some d else acc) none

/-- Model of `updateMaxIndex` (addressDiscovery.ts lines 66-80). -/
def updateMaxIndex (indices : MaxIndices) (addr : DerivedAddress) : MaxIndices :=
  match addr.format, addr.type with
  | AddressEncoding.p2wpkh, AddressType.receive =>
      { indices with segwitReceive := max indices.segwitReceive (addr.index : ℤ) }
  | AddressEncoding.p2wpkh, AddressType.change =>
      { indices with segwitChange := max indices.segwitChange (addr.index : ℤ) }
  | AddressEncoding.p2pkh, AddressType.receive =>
      { indices with legacyReceive := max indices.legacyReceive (addr.index : ℤ) }
  | AddressEncoding.p2pkh, AddressType.change =>
      { indices with legacyChange := max indices.legacyChange (addr.index : ℤ) }

/-- The shared body of the vin/vout scans (lines 35-60): for each listed
address, look it up in the derived-address map; the `knownAddr || isOwn`
guard only ever leads to an update when `knownAddr` is present. -/
def scanEntry (currentAddresses : List DerivedAddress) (indices : MaxIndices)
    (addresses : Option (List Addr)) (isOwn : Option Bool) : MaxIndices :=
  match addresses with
  | none => indices
  | some addrList =>
      addrList.foldl
        (fun ind address =>
          let knownAddr := mapGetLast currentAddresses address
          if knownAddr.isSome ∨ isOwn = some true then
            match knownAddr with
            | some k => updateMaxIndex ind k
            | none => ind
          else ind)
        indices

/-- Model of `findMaxUsedIndices` (addressDiscovery.ts lines 15-64). -/
def findMaxUsedIndices (transactions : List BlockbookTransactionM)
    (currentAddresses : List DerivedAddress) : MaxIndices :=
  transactions.foldl
    (fun indices tx =>
      let afterVin := tx.vin.foldl
        (fun ind input => scanEntry currentAddresses ind input.addresses
          input.isOwn)
        indices
      tx.vout.foldl
        (fun ind output => scanEntry currentAddresses ind output.addresses
          output.isOwn)
        afterVin)
    ⟨-1, -1, -1, -1⟩

/-- The return shape of `deriveWalletWithDiscovery`: two address lists and
nothing else — in particular no convergence indication. -/
structure DiscoveryResult where
  segwitAddresses : List DerivedAddress
  legacyAddresses : List DerivedAddress
deriving DecidableEq

/-- The `while` loop of `deriveWalletWithDiscovery` (addressDiscovery.ts
lines 106-176), by fuel (`maxIterations = 10`). The result is instrumented
with the code path that produced it (`true` for the convergent return at
lines 140-156, `false` for the fallback at lines 162-176) and the final
`currentCount`; the TypeScript function discards both. -/
def discoveryLoop (ctx : CryptoCtx) (mnemonic : String)
    (transactions : List BlockbookTransactionM)
    (gapLimit minAddresses : ℕ) (networkSymbol : String) :
    ℕ → ℕ → Except DeriveError (DiscoveryResult × Bool × ℕ)
  | 0, currentCount =>
      match deriveWalletFromMnemonic ctx mnemonic currentCount currentCount
          networkSymbol with
      | Except.error e => Except.error e
      | Except.ok segwitWallet =>
          match deriveWalletFromMnemonic ctx mnemonic currentCount currentCount
              networkSymbol with
          | Except.error e => Except.error e
          | Except.ok legacyWallet =>
              Except.ok
                (⟨segwitWallet.segwitAccount.addresses,
                  legacyWallet.legacyAccount.addresses⟩, false, currentCount)
  | fuel + 1, currentCount =>
      match deriveWalletFromMnemonic ctx mnemonic currentCount currentCount
          networkSymbol with
      | Except.error e => Except.error e
      | Except.ok wallet =>
          let allAddresses := wallet.segwitAccount.addresses ++
            wallet.legacyAccount.addresses
          let maxIndices := findMaxUsedIndices transactions allAddresses
          let reqSegwitReceive := maxIndices.segwitReceive + gapLimit + 1
          let reqSegwitChange := maxIndices.segwitChange + gapLimit + 1
          let reqLegacyReceive := maxIndices.legacyReceive + gapLimit + 1
          let reqLegacyChange := maxIndices.legacyChange + gapLimit + 1
          let maxRequired : ℤ :=
            max (max (max reqSegwitReceive reqSegwitChange)
              (max reqLegacyReceive reqLegacyChange)) (minAddresses : ℤ)
          if maxRequired ≤ (currentCount : ℤ) then
            match deriveWalletFromMnemonic ctx mnemonic
                (max (minAddresses : ℤ) reqSegwitReceive).toNat
                (max (minAddresses : ℤ) reqSegwitChange).toNat networkSymbol with
            | Except.error e => Except.error e
            | Except.ok segwitWallet =>
                match deriveWalletFromMnemonic ctx mnemonic
                    (max (minAddresses : ℤ) reqLegacyReceive).toNat
                    (max (minAddresses : ℤ) reqLegacyChange).toNat
                    networkSymbol with
                | Except.error e => Except.error e
                | Except.ok legacyWallet =>
                    Except.ok
                      (⟨segwitWallet.segwitAccount.addresses,
                        legacyWallet.legacyAccount.addresses⟩, true,
                        currentCount)
          else
            discoveryLoop ctx mnemonic transactions gapLimit minAddresses
              networkSymbol fuel (min (maxRequired * 2) 10000).toNat

/-- Model of `deriveWalletWithDiscovery` with the code-path instrumentation exposed:
starts at `max(minAddresses, 100)` with 10 iterations. -/
def deriveWalletWithDiscoveryAux (ctx : CryptoCtx) (mnemonic : String)
    (transactions : List BlockbookTransactionM)
    (gapLimit minAddresses : ℕ) (networkSymbol : String) :
    Except DeriveError (DiscoveryResult × Bool × ℕ) :=
  discoveryLoop ctx mnemonic transactions gapLimit minAddresses networkSymbol
    10 (max minAddresses 100)

/-- Model of `deriveWalletWithDiscovery` (addressDiscovery.ts lines 92-177): what the
caller receives — the bare address lists. -/
def deriveWalletWithDiscovery (ctx : CryptoCtx) (mnemonic : String)
    (transactions : List BlockbookTransactionM)
    (gapLimit minAddresses : ℕ) (networkSymbol : String) :
    Except DeriveError DiscoveryResult :=
  (deriveWalletWithDiscoveryAux ctx mnemonic transactions gapLimit minAddresses
    networkSymbol).map (fun p => p.1)

/-- Number of receive-chain addresses in a list. -/
def countReceive (l : List DerivedAddress) : ℕ :=
  l.countP (fun d => decide (d.type = AddressType.receive))

/-- Number of change-chain addresses in a list. -/
def countChange (l : List DerivedAddress) : ℕ :=
  l.countP (fun d => decide (d.type = AddressType.change))

/-- Erase the `isOwn` hint of a transaction input. -/
def eraseOwnInput (i : TransactionInputM) : TransactionInputM :=
  { i with isOwn := none }

/-- Erase the `isOwn` hint of a transaction output. -/
def eraseOwnOutput (o : TransactionOutputM) : TransactionOutputM :=
  { o with isOwn := none }

/-- Erase every `isOwn` hint of a transaction. -/
def eraseOwnTx (tx : BlockbookTransactionM) : BlockbookTransactionM :=
  { tx with vin := tx.vin.map eraseOwnInput, vout := tx.vout.map eraseOwnOutput }

/-! ### Shared infrastructure for the theorems -/

/-- Extract the success value of an `Except`, with a fallback. -/
def okValue : Except ε α → α → α
  | Except.ok a, _ => a
  | Except.error _, d => d

/-- A concrete crypto context in which every library primitive is a simple
total function; used to instantiate witnesses. -/
def trivialCtx : CryptoCtx :=
  { validateMnemonic := fun _ => true
    deriveNode := fun _ _ => ⟨some 1, some 2⟩
    accountFingerprint := fun _ _ => 7
    pubOf := fun k => k + 1
    sign := fun k h => k + h
    p2wpkhScript := fun _ _ => some [0]
    p2pkhScript := fun _ _ => some [1]
    sighash := fun _ _ i => i
    serializeTx := fun _ => "cafe"
    txidOf := fun _ => "id"
    vsizeOf := fun _ => 110
    p2wpkhAddr := fun _ _ _ _ => ⟨"", none, none⟩
    p2pkhAddr := fun _ _ _ _ _ => ⟨"", none, none⟩
    pubKeyHex := fun _ _ _ _ _ => "02aa"
    zpubStr := fun _ _ => "z"
    xpubStr := fun _ _ => "x" }

/-- A mainnet p2wpkh address (valid bech32, hrp `bc`, version 0, 20 bytes). -/
def wAddr1 : Addr := ⟨"bc1qaaa", some ⟨"bc", 0, List.replicate 20 1⟩, none⟩

/-- A second mainnet p2wpkh address. -/
def wAddr2 : Addr := ⟨"bc1qbbb", some ⟨"bc", 0, List.replicate 20 2⟩, none⟩

/-- A third mainnet p2wpkh address, used as change address. -/
def wAddr3 : Addr := ⟨"bc1qccc", some ⟨"bc", 0, List.replicate 20 3⟩, none⟩

/-- A mainnet p2pkh (legacy) address: base58check with version byte 0. -/
def pAddrLegacy : Addr := ⟨"1AAA", none, some ⟨0, List.replicate 20 4⟩⟩

/-- A BIP84 path for the sample UTXO. -/
def samplePath : DerivPath := ⟨⟨84, 0, 0⟩, 0, 0⟩

/-- A segwit UTXO worth 100000 sats with a known path. -/
def wUtxo : BlockbookUtxo := ⟨"ff00", 0, 100000, some wAddr1, some samplePath, none⟩

/-- A legacy (p2pkh) UTXO worth 60000 sats, with previous-transaction hex
supplied, as the mixed-input scenario of the specification requires. -/
def pUtxo : BlockbookUtxo :=
  ⟨"ff01", 1, 60000, some pAddrLegacy, some ⟨⟨44, 0, 0⟩, 0, 0⟩, some "00aa"⟩

/-- A 50000-sat requested output to `wAddr2`. -/
def sampleOutput : TxOutputRequest := ⟨wAddr2, 50000⟩

/-- Fallback result for `okValue`. -/
def dummyResult : TxBuildResult := ⟨"", 0, 0, "", 0, 0, none, [], 0⟩

/-- A sample successful build: one segwit UTXO, one output, no change
address. -/
def sampleBuild : Except BuildError TxBuildResult :=
  buildSignedTransaction trivialCtx 0 "m" [wUtxo] [sampleOutput] [] none 1

/-- The result of `sampleBuild`. -/
def sampleResult : TxBuildResult := okValue sampleBuild dummyResult

/-! ### Inversion lemmas for the builder -/

theorem checkPlannedOutputs_ok_inv {po : List TxOutputRequest} {cv inT : ℤ}
    {po' : List TxOutputRequest} {cv' : ℤ}
    (h : checkPlannedOutputs po cv inT = Except.ok (po', cv')) :
    po' = po ∧ cv' = cv ∧ po ≠ [] ∧ sumAmounts po ≤ inT := by
  unfold checkPlannedOutputs at h
  split at h
  · exact absurd h (by simp)
  · split at h
    · exact absurd h (by simp)
    · rename_i hne hle
      injection h with h1
      injection h1 with hpo hcv
      exact ⟨hpo.symm, hcv.symm, hne, by omega⟩

theorem planOutputs_ok_inv {utxos : List BlockbookUtxo}
    {outputs : List TxOutputRequest}
    {owt : List (TxOutputRequest × AddressEncoding)} {ca : Option Addr}
    {fr : ℚ} {inT : ℤ} {po : List TxOutputRequest} {cv : ℤ}
    (h : planOutputs utxos outputs owt ca fr inT = Except.ok (po, cv)) :
    (po = outputs ∨ ∃ c, ca = some c ∧ po = outputs ++ [⟨c, cv⟩] ∧ 0 < cv) ∧
      sumAmounts po ≤ inT ∧ po ≠ [] ∧ 0 ≤ cv := by
  cases ca with
  | none =>
      simp only [planOutputs] at h
      obtain ⟨hpo, hcv, hne, hle⟩ := checkPlannedOutputs_ok_inv h
      subst hcv
      exact ⟨Or.inl hpo, by rw [hpo]; exact hle, by rw [hpo]; exact hne,
        le_refl 0⟩
  | some c =>
      cases hdet : detectAddressType c with
      | none =>
          simp only [planOutputs, hdet] at h
          exact absurd h (by simp)
      | some ct =>
          simp only [planOutputs, hdet] at h
          by_cases h1 : changeValueOf inT outputs
              (feeEstimateOf (estimatedVsizeOf utxos owt ct) fr) < 0
          · rw [if_pos h1] at h
            exact absurd h (by simp)
          · rw [if_neg h1] at h
            by_cases h2 : changeValueOf inT outputs
                (feeEstimateOf (estimatedVsizeOf utxos owt ct) fr) > 0
            · rw [if_pos h2] at h
              obtain ⟨hpo, hcv, hne, hle⟩ := checkPlannedOutputs_ok_inv h
              subst hcv
              exact ⟨Or.inr ⟨c, rfl, hpo, h2⟩, by rw [hpo]; exact hle,
                by rw [hpo]; exact hne, le_of_lt h2⟩
            · rw [if_neg h2] at h
              by_cases h3 : outputs = []
              · rw [if_pos h3] at h
                exact absurd h (by simp)
              · rw [if_neg h3] at h
                obtain ⟨hpo, hcv, hne, hle⟩ := checkPlannedOutputs_ok_inv h
                subst hcv
                exact ⟨Or.inl hpo, by rw [hpo]; exact hle,
                  by rw [hpo]; exact hne, by omega⟩

theorem buildCore_ok_inv {ctx : CryptoCtx} {e : ℕ} {m : String}
    {utxos : List BlockbookUtxo} {outputs : List TxOutputRequest}
    {amap : List (Addr × DerivedAddress)} {ca : Option Addr} {fr : ℚ}
    {r : TxBuildResult} {tx : FinalTx}
    (h : buildSignedTransactionCore ctx e m utxos outputs amap ca fr =
      Except.ok (r, tx)) :
    utxos ≠ [] ∧
    ∃ owt po cv inputData,
      classifyOutputs outputs = Except.ok owt ∧
      planOutputs utxos outputs owt ca fr (inputTotalOf utxos) =
        Except.ok (po, cv) ∧
      processUtxos ctx m (ctx.accountFingerprint m ACCOUNT_PATH) amap utxos =
        Except.ok inputData ∧
      r.outputs = po ∧ r.totalOutput = sumAmounts po ∧
      r.feeSats = inputTotalOf utxos - sumAmounts po ∧
      r.totalInput = inputTotalOf utxos ∧
      r.changeOutput =
        (if cv > 0 then ca.map (fun c => ⟨c, cv⟩) else none) ∧
      tx.ins = inputData.map (fun pr => pr.1) ∧
      addPsbtOutputs po = Except.ok tx.outs ∧
      checkWitnessValues tx.ins = Except.ok () := by
  unfold buildSignedTransactionCore at h
  by_cases h0 : utxos = []
  · rw [if_pos h0] at h
    exact absurd h (by simp)
  · rw [if_neg h0] at h
    by_cases h1 : outputs = [] ∧ ca = none
    · rw [if_pos h1] at h
      exact absurd h (by simp)
    · rw [if_neg h1] at h
      cases hcls : classifyOutputs outputs with
      | error ex =>
          simp only [hcls] at h
          exact absurd h (by simp)
      | ok owt =>
          simp only [hcls] at h
          cases hplan : planOutputs utxos outputs owt ca fr
              (inputTotalOf utxos) with
          | error ex =>
              simp only [hplan] at h
              exact absurd h (by simp)
          | ok plan =>
              obtain ⟨po, cv⟩ := plan
              simp only [hplan] at h
              cases hout : addPsbtOutputs po with
              | error ex =>
                  simp only [hout] at h
                  exact absurd h (by simp)
              | ok psbtOuts =>
                  simp only [hout] at h
                  cases hproc : processUtxos ctx m
                      (ctx.accountFingerprint m ACCOUNT_PATH) amap utxos with
                  | error ex =>
                      simp only [hproc] at h
                      exact absurd h (by simp)
                  | ok inputData =>
                      simp only [hproc] at h
                      cases hchk : checkWitnessValues
                          (inputData.map (fun pr => pr.1)) with
                      | error ex =>
                          simp only [hchk] at h
                          exact absurd h (by simp)
                      | ok u =>
                          simp only [hchk] at h
                          injection h with h1
                          injection h1 with hr htx
                          subst hr htx
                          exact ⟨h0, owt, po, cv, inputData, rfl, hplan,
                            rfl, rfl, rfl, rfl, rfl, rfl, rfl, hout, hchk⟩

theorem build_ok_inv {ctx : CryptoCtx} {e : ℕ} {m : String}
    {utxos : List BlockbookUtxo} {outputs : List TxOutputRequest}
    {amap : List (Addr × DerivedAddress)} {ca : Option Addr} {fr : ℚ}
    {r : TxBuildResult}
    (h : buildSignedTransaction ctx e m utxos outputs amap ca fr =
      Except.ok r) :
    ∃ tx, buildSignedTransactionCore ctx e m utxos outputs amap ca fr =
      Except.ok (r, tx) := by
  unfold buildSignedTransaction at h
  cases hc : buildSignedTransactionCore ctx e m utxos outputs amap ca fr with
  | error ex =>
      rw [hc] at h
      exact absurd h (by simp [Except.map])
  | ok p =>
      rw [hc] at h
      simp only [Except.map] at h
      injection h with h1
      exact ⟨p.2, by rw [← h1, Prod.mk.eta]⟩

/-! ### Claim C2 -/

/-- C2: for every successful `buildSignedTransaction` call, the reported
outputs sum to `totalOutput`, `totalOutput + feeSats = totalInput` exactly
(no satoshis lost or created), and the sum of all assembled outputs
(requested plus change) never exceeds the total input value. -/
theorem build_fee_change_invariant (ctx : CryptoCtx) (e : ℕ) (m : String)
    (utxos : List BlockbookUtxo) (outputs : List TxOutputRequest)
    (amap : List (Addr × DerivedAddress)) (ca : Option Addr) (fr : ℚ)
    (r : TxBuildResult)
    (h : buildSignedTransaction ctx e m utxos outputs amap ca fr =
      Except.ok r) :
    sumAmounts r.outputs = r.totalOutput ∧
      r.totalOutput + r.feeSats = r.totalInput ∧
      r.totalOutput ≤ r.totalInput := by
  obtain ⟨tx, hc⟩ := build_ok_inv h
  obtain ⟨-, owt, po, cv, inputData, -, hplan, -, hro, hto, hfee, hti, -⟩ :=
    buildCore_ok_inv hc
  obtain ⟨-, hle, -, -⟩ := planOutputs_ok_inv hplan
  refine ⟨by rw [hro, hto], by rw [hto, hfee, hti]; ring, ?_⟩
  rw [hto, hti]
  exact hle

/-- Witness for C2: the sample build succeeds and satisfies the invariant. -/
theorem build_fee_change_invariant_witness :
    sampleBuild = Except.ok sampleResult ∧
      sumAmounts sampleResult.outputs = sampleResult.totalOutput ∧
      sampleResult.totalOutput + sampleResult.feeSats = sampleResult.totalInput ∧
      sampleResult.totalOutput ≤ sampleResult.totalInput :=
  ⟨rfl, build_fee_change_invariant trivialCtx 0 "m" [wUtxo] [sampleOutput] []
    none 1 sampleResult rfl⟩

/-! ### Claim C3 -/

/-- C3: `buildSignedTransaction` is deterministic. The `entropy` argument
models any ambient randomness available at call time; because ECDSA nonces
are derived per RFC6979 (the `hmacSha256Sync` wiring of
transactionBuilder.ts lines 15-22), no part of the build reads it, and two
calls on the same `(mnemonic, utxos, outputs, changeAddress, feeRate)` tuple
yield byte-identical hex, identical txid, and in fact identical results. -/
theorem build_deterministic (ctx : CryptoCtx) (e₁ e₂ : ℕ) (m : String)
    (utxos : List BlockbookUtxo) (outputs : List TxOutputRequest)
    (amap : List (Addr × DerivedAddress)) (ca : Option Addr) (fr : ℚ)
    (r₁ r₂ : TxBuildResult)
    (h₁ : buildSignedTransaction ctx e₁ m utxos outputs amap ca fr =
      Except.ok r₁)
    (h₂ : buildSignedTransaction ctx e₂ m utxos outputs amap ca fr =
      Except.ok r₂) :
    r₁.hex = r₂.hex ∧ r₁.txId = r₂.txId ∧ r₁ = r₂ := by
  have hsame : buildSignedTransaction ctx e₁ m utxos outputs amap ca fr =
      buildSignedTransaction ctx e₂ m utxos outputs amap ca fr := rfl
  rw [h₁, h₂] at hsame
  injection hsame with hr
  exact ⟨by rw [hr], by rw [hr], hr⟩

/-- Witness for C3: two sample builds with different ambient entropy agree. -/
theorem build_deterministic_witness :
    buildSignedTransaction trivialCtx 0 "m" [wUtxo] [sampleOutput] [] none 1 =
      Except.ok sampleResult ∧
    buildSignedTransaction trivialCtx 1 "m" [wUtxo] [sampleOutput] [] none 1 =
      Except.ok sampleResult ∧
    sampleResult.hex = sampleResult.hex :=
  ⟨rfl, rfl,
    (build_deterministic trivialCtx 0 1 "m" [wUtxo] [sampleOutput] [] none 1
      sampleResult sampleResult rfl rfl).1⟩

/-! ### Claim C9 -/

/-- The BIP173 testnet example address: a perfectly valid bech32 string with
human-readable part `tb`, witness version 0 and a 20-byte program. -/
def tbAddress : Addr :=
  ⟨"tb1qw508d6qejxtdg4y5r3zarvary0c5xw7kxpjzsx",
    some ⟨"tb", 0,
      [117, 30, 118, 232, 25, 145, 150, 212, 84, 148, 28, 69, 209, 179, 163,
        35, 241, 67, 59, 214]⟩,
    none⟩

/-- C9 (code bug): `detectAddressType` classifies a valid testnet bech32
address as `p2wpkh` even though its human-readable part is `tb`, not the
mainnet `bc` — the source never inspects the decoded human-readable part, while the
specification (and the repository intent documented in its own tests: only
mainnet bech32 addresses are acceptable) requires rejecting it. -/
theorem detectAddressType_ignores_hrp :
    detectAddressType tbAddress = some AddressEncoding.p2wpkh ∧
      tbAddress.bech32.map Bech32Decoded.hrp = some "tb" ∧
      ("tb" : String) ≠ "bc" :=
  ⟨rfl, rfl, by decide⟩

/-! ### Claim C10 -/

theorem scanEntry_isOwn_irrelevant (ca : List DerivedAddress)
    (ind : MaxIndices) (adrs : Option (List Addr)) (own : Option Bool) :
    scanEntry ca ind adrs own = scanEntry ca ind adrs none := by
  cases adrs with
  | none => rfl
  | some l =>
      unfold scanEntry
      refine List.foldl_ext _ _ ind (fun ind' a _ => ?_)
      cases hk : mapGetLast ca a with
      | some k => simp [hk]
      | none => simp [hk]

theorem findMax_eraseOwn (txs : List BlockbookTransactionM)
    (ca : List DerivedAddress) :
    findMaxUsedIndices txs ca = findMaxUsedIndices (txs.map eraseOwnTx) ca := by
  unfold findMaxUsedIndices
  rw [List.foldl_map]
  refine List.foldl_ext _ _ _ (fun ind tx _ => ?_)
  unfold eraseOwnTx
  simp only
  rw [List.foldl_map, List.foldl_map]
  have hvin : tx.vin.foldl
      (fun ind' input => scanEntry ca ind' input.addresses input.isOwn) ind =
      tx.vin.foldl
      (fun ind' input =>
        scanEntry ca ind' (eraseOwnInput input).addresses
          (eraseOwnInput input).isOwn) ind := by
    refine List.foldl_ext _ _ ind (fun ind' input _ => ?_)
    unfold eraseOwnInput
    simp only
    exact scanEntry_isOwn_irrelevant ca ind' input.addresses input.isOwn
  rw [← hvin]
  refine List.foldl_ext _ _ _ (fun ind' output _ => ?_)
  unfold eraseOwnOutput
  simp only
  exact scanEntry_isOwn_irrelevant ca ind' output.addresses output.isOwn

/-- C10: the indices computed by `findMaxUsedIndices` depend only on which
transaction addresses are members of the derived address set — two histories
that agree after erasing all `isOwn` hint flags (in particular, two
histories differing only in the `isOwn` flags of addresses outside the
derived set) produce identical indices. -/
theorem findMaxUsedIndices_isOwn_independent
    (txs₁ txs₂ : List BlockbookTransactionM) (ca : List DerivedAddress)
    (h : txs₁.map eraseOwnTx = txs₂.map eraseOwnTx) :
    findMaxUsedIndices txs₁ ca = findMaxUsedIndices txs₂ ca := by
  rw [findMax_eraseOwn txs₁ ca, findMax_eraseOwn txs₂ ca, h]

/-- A history entry flagged `isOwn = true` on an unknown address. -/
def ownTaggedTx : BlockbookTransactionM :=
  ⟨"t0", [], [⟨some [⟨"unknown", none, none⟩], some true⟩]⟩

/-- The same history entry without the hint. -/
def ownUntaggedTx : BlockbookTransactionM :=
  ⟨"t0", [], [⟨some [⟨"unknown", none, none⟩], none⟩]⟩

/-- Witness for C10: flipping an `isOwn` hint on a non-derived address leaves
the computed indices unchanged. -/
theorem findMaxUsedIndices_isOwn_independent_witness :
    [ownTaggedTx].map eraseOwnTx = [ownUntaggedTx].map eraseOwnTx ∧
      findMaxUsedIndices [ownTaggedTx] [] =
        findMaxUsedIndices [ownUntaggedTx] [] :=
  ⟨by decide, findMaxUsedIndices_isOwn_independent [ownTaggedTx]
    [ownUntaggedTx] [] (by decide)⟩

/-! ### Claim C1 -/

theorem buildPayments_ok_inv {ctx : CryptoCtx} {a : Addr} {pk : Option ℕ}
    {pay : PaymentM} (h : buildPayments ctx a pk = Except.ok pay) :
    detectAddressType a = some AddressEncoding.p2wpkh := by
  cases hdet : detectAddressType a with
  | none =>
      simp only [buildPayments, hdet] at h
      exact absurd h (by simp)
  | some t =>
      by_cases ht : t = AddressEncoding.p2wpkh
      · rw [ht]
      · simp only [buildPayments, hdet] at h
        rw [if_pos ht] at h
        exact absurd h (by simp)

theorem signUtxoInput_ok_inv {ctx : CryptoCtx} {m : String} {fp : ℕ}
    {u : BlockbookUtxo} {path : DerivPath} {pr : PsbtInput × SignerM}
    (h : signUtxoInput ctx m fp u path = Except.ok pr) :
    detectAddressType (u.address.getD emptyAddr) = some AddressEncoding.p2wpkh ∧
      pr.1.witnessUtxo.value = f64roundInt (u.value : ℤ) := by
  unfold signUtxoInput at h
  cases hpriv : (ctx.deriveNode m path).privateKey with
  | none =>
      simp only [hpriv] at h
      exact absurd h (by simp)
  | some priv =>
      cases hpub : (ctx.deriveNode m path).publicKey with
      | none =>
          simp only [hpriv, hpub] at h
          exact absurd h (by simp)
      | some pub =>
          simp only [hpriv, hpub] at h
          cases hb : buildPayments ctx (u.address.getD emptyAddr) (some pub) with
          | error ex =>
              rw [hb] at h
              exact absurd h (by simp [Except.map])
          | ok pay =>
              rw [hb] at h
              simp only [Except.map] at h
              injection h with h1
              exact ⟨buildPayments_ok_inv hb, by rw [← h1]⟩

theorem processUtxo_ok_inv {ctx : CryptoCtx} {m : String} {fp : ℕ}
    {amap : List (Addr × DerivedAddress)} {u : BlockbookUtxo}
    {pr : PsbtInput × SignerM}
    (h : processUtxo ctx m fp amap u = Except.ok pr) :
    detectAddressType (u.address.getD emptyAddr) = some AddressEncoding.p2wpkh ∧
      pr.1.witnessUtxo.value = f64roundInt (u.value : ℤ) := by
  unfold processUtxo at h
  cases hp : u.path with
  | some p =>
      simp only [hp] at h
      exact signUtxoInput_ok_inv h
  | none =>
      simp only [hp] at h
      cases hl : lookupAddress amap (u.address.getD emptyAddr) with
      | none =>
          simp only [hl, Option.map] at h
          exact absurd h (by simp)
      | some d =>
          simp only [hl, Option.map] at h
          exact signUtxoInput_ok_inv h

theorem processUtxos_ok_mem {ctx : CryptoCtx} {m : String} {fp : ℕ}
    {amap : List (Addr × DerivedAddress)} {utxos : List BlockbookUtxo}
    {l : List (PsbtInput × SignerM)} {u : BlockbookUtxo}
    (h : processUtxos ctx m fp amap utxos = Except.ok l) (hu : u ∈ utxos) :
    ∃ pr, processUtxo ctx m fp amap u = Except.ok pr := by
  induction utxos generalizing l with
  | nil => cases hu
  | cons a rest ih =>
      unfold processUtxos at h
      cases hpa : processUtxo ctx m fp amap a with
      | error ex =>
          rw [hpa] at h
          exact absurd h (by simp)
      | ok pr =>
          rw [hpa] at h
          cases hrest : processUtxos ctx m fp amap rest with
          | error ex =>
              rw [hrest] at h
              exact absurd h (by simp)
          | ok lr =>
              cases hu with
              | head => exact ⟨pr, hpa⟩
              | tail _ hu' => exact ih hrest hu'

/-- C1 (amended): the builder never signs a p2pkh input — a successful
`buildSignedTransaction` call implies the address of every selected UTXO
classifies as p2wpkh. The legacy branch of `buildPayments` is unreachable
behind the "Currently only native segwit UTXOs are supported for signing"
guard, and no `MissingPreviousTransaction`-style failure exists: the
attached previous-transaction bytes are never consulted. -/
theorem build_never_signs_p2pkh (ctx : CryptoCtx) (e : ℕ) (m : String)
    (utxos : List BlockbookUtxo) (outputs : List TxOutputRequest)
    (amap : List (Addr × DerivedAddress)) (ca : Option Addr) (fr : ℚ)
    (r : TxBuildResult) (u : BlockbookUtxo)
    (h : buildSignedTransaction ctx e m utxos outputs amap ca fr =
      Except.ok r)
    (hu : u ∈ utxos) :
    detectAddressType (u.address.getD emptyAddr) ≠
      some AddressEncoding.p2pkh := by
  obtain ⟨tx, hc⟩ := build_ok_inv h
  obtain ⟨-, owt, po, cv, inputData, -, -, hproc, -⟩ := buildCore_ok_inv hc
  obtain ⟨pr, hpr⟩ := processUtxos_ok_mem hproc hu
  rw [(processUtxo_ok_inv hpr).1]
  simp

/-- Counterexample for C1: the claimed mixed build — one p2wpkh UTXO plus
one p2pkh UTXO with previous-transaction hex supplied — does not produce a
signed transaction; it fails with the only-segwit error. -/
theorem mixed_build_rejected :
    buildSignedTransaction trivialCtx 0 "m" [wUtxo, pUtxo] [sampleOutput] []
        none 1 = Except.error BuildError.onlySegwitSupported ∧
      detectAddressType (pUtxo.address.getD emptyAddr) =
        some AddressEncoding.p2pkh ∧
      pUtxo.hex = some "00aa" :=
  ⟨rfl, rfl, rfl⟩

/-- Witness for C1 (amended): a successful all-segwit build, whose UTXO is
indeed not p2pkh. -/
theorem build_never_signs_p2pkh_witness :
    sampleBuild = Except.ok sampleResult ∧ wUtxo ∈ [wUtxo] ∧
      detectAddressType (wUtxo.address.getD emptyAddr) ≠
        some AddressEncoding.p2pkh :=
  ⟨rfl, by simp,
    build_never_signs_p2pkh trivialCtx 0 "m" [wUtxo] [sampleOutput] [] none 1
      sampleResult wUtxo rfl (by simp)⟩

/-! ### Claim C4 -/

theorem build_eq_of_planError {ctx : CryptoCtx} {e : ℕ} {m : String}
    {utxos : List BlockbookUtxo} {outputs : List TxOutputRequest}
    {amap : List (Addr × DerivedAddress)} {ca : Addr} {fr : ℚ}
    {owt : List (TxOutputRequest × AddressEncoding)} {err : BuildError}
    (hne : utxos ≠ [])
    (hcls : classifyOutputs outputs = Except.ok owt)
    (hplan : planOutputs utxos outputs owt (some ca) fr (inputTotalOf utxos) =
      Except.error err) :
    buildSignedTransaction ctx e m utxos outputs amap (some ca) fr =
      Except.error err := by
  unfold buildSignedTransaction buildSignedTransactionCore
  rw [if_neg hne, if_neg (by simp : ¬(outputs = [] ∧ (some ca : Option Addr) = none))]
  simp only [hcls, hplan, Except.map]

theorem planOutputs_some_ok_inv {utxos : List BlockbookUtxo}
    {outputs : List TxOutputRequest}
    {owt : List (TxOutputRequest × AddressEncoding)} {ca : Addr}
    {ct : AddressEncoding} {fr : ℚ} {inT : ℤ} {po : List TxOutputRequest}
    {cv : ℤ}
    (hct : detectAddressType ca = some ct)
    (h : planOutputs utxos outputs owt (some ca) fr inT = Except.ok (po, cv)) :
    cv = changeValueOf inT outputs
        (feeEstimateOf (estimatedVsizeOf utxos owt ct) fr) ∧
      (0 < cv → po = outputs ++ [⟨ca, cv⟩]) ∧ (cv ≤ 0 → po = outputs) := by
  simp only [planOutputs, hct] at h
  by_cases h1 : changeValueOf inT outputs
      (feeEstimateOf (estimatedVsizeOf utxos owt ct) fr) < 0
  · rw [if_pos h1] at h
    exact absurd h (by simp)
  · rw [if_neg h1] at h
    by_cases h2 : changeValueOf inT outputs
        (feeEstimateOf (estimatedVsizeOf utxos owt ct) fr) > 0
    · rw [if_pos h2] at h
      obtain ⟨hpo, hcv, -, -⟩ := checkPlannedOutputs_ok_inv h
      subst hcv
      exact ⟨rfl, fun _ => hpo, fun hle => absurd h2 (by omega)⟩
    · rw [if_neg h2] at h
      by_cases h3 : outputs = []
      · rw [if_pos h3] at h
        exact absurd h (by simp)
      · rw [if_neg h3] at h
        obtain ⟨hpo, hcv, -, -⟩ := checkPlannedOutputs_ok_inv h
        subst hcv
        exact ⟨rfl, fun hpos => absurd hpos (by omega), fun _ => hpo⟩

/-- C4: with a (classifiable) change address supplied, the builder computes
`changeValue = totalInput − Σ requestedOutputAmounts − feeEstimate`
(`changeValueOf`), fails `InsufficientFunds` whenever it is negative, fails
`NoValueRemaining` when it is zero and no outputs were requested, and on
success appends a change output at the change address exactly when it is
positive. -/
theorem build_change_computation (ctx : CryptoCtx) (e : ℕ) (m : String)
    (utxos : List BlockbookUtxo) (outputs : List TxOutputRequest)
    (amap : List (Addr × DerivedAddress)) (ca : Addr) (ct : AddressEncoding)
    (owt : List (TxOutputRequest × AddressEncoding)) (fr : ℚ) (cv : ℤ)
    (hne : utxos ≠ [])
    (hcls : classifyOutputs outputs = Except.ok owt)
    (hct : detectAddressType ca = some ct)
    (hcv : cv = changeValueOf (inputTotalOf utxos) outputs
      (feeEstimateOf (estimatedVsizeOf utxos owt ct) fr)) :
    (cv < 0 → buildSignedTransaction ctx e m utxos outputs amap (some ca) fr =
      Except.error BuildError.insufficientFunds) ∧
    (cv = 0 → outputs = [] →
      buildSignedTransaction ctx e m utxos outputs amap (some ca) fr =
        Except.error BuildError.noValueRemaining) ∧
    (∀ r, buildSignedTransaction ctx e m utxos outputs amap (some ca) fr =
        Except.ok r →
      (0 < cv → r.outputs = outputs ++ [⟨ca, cv⟩] ∧
        r.changeOutput = some ⟨ca, cv⟩) ∧
      (cv ≤ 0 → r.outputs = outputs ∧ r.changeOutput = none)) := by
  refine ⟨fun hneg => ?_, fun hzero hempty => ?_, fun r h => ?_⟩
  · refine build_eq_of_planError hne hcls ?_
    simp only [planOutputs, hct]
    rw [if_pos (hcv ▸ hneg)]
  · refine build_eq_of_planError hne hcls ?_
    simp only [planOutputs, hct]
    rw [if_neg (by omega : ¬changeValueOf (inputTotalOf utxos) outputs
        (feeEstimateOf (estimatedVsizeOf utxos owt ct) fr) < 0),
      if_neg (by omega : ¬changeValueOf (inputTotalOf utxos) outputs
        (feeEstimateOf (estimatedVsizeOf utxos owt ct) fr) > 0),
      if_pos hempty]
  · obtain ⟨tx, hc⟩ := build_ok_inv h
    obtain ⟨-, owt', po, cv', inputData, hcls', hplan, -, hro, -, -, -, hco, -⟩ :=
      buildCore_ok_inv hc
    rw [hcls'] at hcls
    injection hcls with howt
    subst howt
    obtain ⟨hcv', hpos, hnonpos⟩ := planOutputs_some_ok_inv hct hplan
    have hcveq : cv = cv' := by rw [hcv, hcv']
    subst hcveq
    constructor
    · intro hp
      refine ⟨by rw [hro, hpos hp], ?_⟩
      rw [hco, if_pos hp]
      rfl
    · intro hle
      refine ⟨by rw [hro, hnonpos hle], ?_⟩
      rw [hco, if_neg (by omega)]

/-- A requested output far beyond the value of the sample UTXO. -/
def hugeOutput : TxOutputRequest := ⟨wAddr2, 1000000⟩

/-- Witness for C4: with a 100000-sat input, a 1000000-sat request and fee
rate 0, the change value is negative and the build fails `InsufficientFunds`. -/
theorem build_change_computation_witness :
    ([wUtxo] : List BlockbookUtxo) ≠ [] ∧
      detectAddressType wAddr3 = some AddressEncoding.p2wpkh ∧
      changeValueOf (inputTotalOf [wUtxo]) [hugeOutput]
        (feeEstimateOf
          (estimatedVsizeOf [wUtxo] [(hugeOutput, AddressEncoding.p2wpkh)]
            AddressEncoding.p2wpkh) 0) < 0 ∧
      buildSignedTransaction trivialCtx 0 "m" [wUtxo] [hugeOutput] []
        (some wAddr3) 0 = Except.error BuildError.insufficientFunds := by
  have hfee : feeEstimateOf
      (estimatedVsizeOf [wUtxo] [(hugeOutput, AddressEncoding.p2wpkh)]
        AddressEncoding.p2wpkh) 0 = 0 := by
    simp [feeEstimateOf]
  have hneg : changeValueOf (inputTotalOf [wUtxo]) [hugeOutput]
      (feeEstimateOf
        (estimatedVsizeOf [wUtxo] [(hugeOutput, AddressEncoding.p2wpkh)]
          AddressEncoding.p2wpkh) 0) < 0 := by
    rw [hfee]
    decide
  exact ⟨by simp, rfl, hneg,
    (build_change_computation trivialCtx 0 "m" [wUtxo] [hugeOutput] [] wAddr3
      AddressEncoding.p2wpkh [(hugeOutput, AddressEncoding.p2wpkh)] 0 _
      (by simp) rfl rfl rfl).1 hneg⟩

/-! ### Claim C5 -/

theorem inputWeights_fold (utxos : List BlockbookUtxo) (init : ℕ)
    (hin : ∀ u ∈ utxos,
      (detectAddressType (u.address.getD emptyAddr)).isSome) :
    (utxos.map (fun u => detectAddressType (u.address.getD emptyAddr))).foldl
        (fun total t => total + estimateInputWeight
          (t.getD AddressEncoding.p2wpkh)) init =
      init +
        68 * utxos.countP (fun u => decide
          (detectAddressType (u.address.getD emptyAddr) =
            some AddressEncoding.p2wpkh)) +
        148 * utxos.countP (fun u => decide
          (detectAddressType (u.address.getD emptyAddr) =
            some AddressEncoding.p2pkh)) := by
  induction utxos generalizing init with
  | nil => simp
  | cons a rest ih =>
      have ha := hin a (by simp)
      have hrest := fun u hu => hin u (List.mem_cons_of_mem a hu)
      cases hda : detectAddressType (a.address.getD emptyAddr) with
      | none => rw [hda] at ha; exact absurd ha (by simp)
      | some t =>
          cases t with
          | p2wpkh =>
              have hw : (a :: rest).countP (fun u => decide
                  (detectAddressType (u.address.getD emptyAddr) =
                    some AddressEncoding.p2wpkh)) =
                  rest.countP (fun u => decide
                    (detectAddressType (u.address.getD emptyAddr) =
                      some AddressEncoding.p2wpkh)) + 1 := by
                rw [List.countP_cons]
                simp [hda]
              have hp : (a :: rest).countP (fun u => decide
                  (detectAddressType (u.address.getD emptyAddr) =
                    some AddressEncoding.p2pkh)) =
                  rest.countP (fun u => decide
                    (detectAddressType (u.address.getD emptyAddr) =
                      some AddressEncoding.p2pkh)) := by
                rw [List.countP_cons]
                simp [hda]
              rw [List.map_cons, List.foldl_cons, hda, ih _ hrest, hw, hp]
              simp only [Option.getD_some, estimateInputWeight]
              ring
          | p2pkh =>
              have hw : (a :: rest).countP (fun u => decide
                  (detectAddressType (u.address.getD emptyAddr) =
                    some AddressEncoding.p2wpkh)) =
                  rest.countP (fun u => decide
                    (detectAddressType (u.address.getD emptyAddr) =
                      some AddressEncoding.p2wpkh)) := by
                rw [List.countP_cons]
                simp [hda]
              have hp : (a :: rest).countP (fun u => decide
                  (detectAddressType (u.address.getD emptyAddr) =
                    some AddressEncoding.p2pkh)) =
                  rest.countP (fun u => decide
                    (detectAddressType (u.address.getD emptyAddr) =
                      some AddressEncoding.p2pkh)) + 1 := by
                rw [List.countP_cons]
                simp [hda]
              rw [List.map_cons, List.foldl_cons, hda, ih _ hrest, hw, hp]
              simp only [Option.getD_some, estimateInputWeight]
              ring

theorem outputWeights_fold
    (owt : List (TxOutputRequest × AddressEncoding)) (init : ℕ) :
    owt.foldl (fun total o => total + estimateOutputWeight o.2) init =
      init + 31 * owt.countP (fun o => decide (o.2 = AddressEncoding.p2wpkh)) +
        34 * owt.countP (fun o => decide (o.2 = AddressEncoding.p2pkh)) := by
  induction owt generalizing init with
  | nil => simp
  | cons a rest ih =>
      cases ht : a.2 with
      | p2wpkh =>
          have hw : (a :: rest).countP (fun o => decide
              (o.2 = AddressEncoding.p2wpkh)) =
              rest.countP (fun o => decide (o.2 = AddressEncoding.p2wpkh)) + 1 := by
            rw [List.countP_cons]
            simp [ht]
          have hp : (a :: rest).countP (fun o => decide
              (o.2 = AddressEncoding.p2pkh)) =
              rest.countP (fun o => decide (o.2 = AddressEncoding.p2pkh)) := by
            rw [List.countP_cons]
            simp [ht]
          rw [List.foldl_cons, ht, ih, hw, hp]
          simp only [estimateOutputWeight]
          ring
      | p2pkh =>
          have hw : (a :: rest).countP (fun o => decide
              (o.2 = AddressEncoding.p2wpkh)) =
              rest.countP (fun o => decide (o.2 = AddressEncoding.p2wpkh)) := by
            rw [List.countP_cons]
            simp [ht]
          have hp : (a :: rest).countP (fun o => decide
              (o.2 = AddressEncoding.p2pkh)) =
              rest.countP (fun o => decide (o.2 = AddressEncoding.p2pkh)) + 1 := by
            rw [List.countP_cons]
            simp [ht]
          rw [List.foldl_cons, ht, ih, hw, hp]
          simp only [estimateOutputWeight]
          ring

theorem classify_count {outputs : List TxOutputRequest}
    {owt : List (TxOutputRequest × AddressEncoding)}
    (h : classifyOutputs outputs = Except.ok owt) (ty : AddressEncoding) :
    owt.countP (fun o => decide (o.2 = ty)) =
      outputs.countP (fun o => decide (detectAddressType o.address = some ty)) := by
  induction outputs generalizing owt with
  | nil =>
      unfold classifyOutputs at h
      injection h with h1
      subst h1
      rfl
  | cons o rest ih =>
      unfold classifyOutputs at h
      cases hdet : detectAddressType o.address with
      | none => rw [hdet] at h; exact absurd h (by simp)
      | some t =>
          rw [hdet] at h
          cases hrest : classifyOutputs rest with
          | error ex =>
              rw [hrest] at h
              exact absurd h (by simp [Except.map])
          | ok l =>
              rw [hrest] at h
              simp only [Except.map] at h
              injection h with h1
              subst h1
              simp only [List.countP_cons, hdet, ih hrest]
              simp

/-- C5: the pre-signing estimated virtual size equals 10 plus 68 per p2wpkh
input, 148 per p2pkh input (assuming every input classifies; unclassifiable
inputs silently fall back to the p2wpkh weight), 31 per p2wpkh output and 34
per p2pkh output, plus the weight of the change output; the fee estimate is
`ceil(estimatedVsize * feeRatePerVByte)`. -/
theorem vsize_fee_estimate (utxos : List BlockbookUtxo)
    (outputs : List TxOutputRequest)
    (owt : List (TxOutputRequest × AddressEncoding)) (ct : AddressEncoding)
    (fr : ℚ)
    (hcls : classifyOutputs outputs = Except.ok owt)
    (hin : ∀ u ∈ utxos,
      (detectAddressType (u.address.getD emptyAddr)).isSome) :
    estimatedVsizeOf utxos owt ct =
      10 +
        68 * utxos.countP (fun u => decide
          (detectAddressType (u.address.getD emptyAddr) =
            some AddressEncoding.p2wpkh)) +
        148 * utxos.countP (fun u => decide
          (detectAddressType (u.address.getD emptyAddr) =
            some AddressEncoding.p2pkh)) +
        31 * outputs.countP (fun o => decide
          (detectAddressType o.address = some AddressEncoding.p2wpkh)) +
        34 * outputs.countP (fun o => decide
          (detectAddressType o.address = some AddressEncoding.p2pkh)) +
        estimateOutputWeight ct ∧
    feeEstimateOf (estimatedVsizeOf utxos owt ct) fr =
      Int.ceil ((estimatedVsizeOf utxos owt ct : ℚ) * fr) := by
  constructor
  · unfold estimatedVsizeOf
    rw [inputWeights_fold utxos 0 hin, outputWeights_fold owt 0,
      classify_count hcls AddressEncoding.p2wpkh,
      classify_count hcls AddressEncoding.p2pkh]
    omega
  · rfl

/-- Witness for C5: one p2wpkh input (68), one p2pkh input (148), one p2wpkh
output (31) and a p2wpkh change output (31) give 10+68+148+31+31 = 288. -/
theorem vsize_fee_estimate_witness :
    (∀ u ∈ [wUtxo, pUtxo],
      (detectAddressType (u.address.getD emptyAddr)).isSome) ∧
      estimatedVsizeOf [wUtxo, pUtxo] [(sampleOutput, AddressEncoding.p2wpkh)]
        AddressEncoding.p2wpkh = 288 := by
  refine ⟨by decide, ?_⟩
  rw [(vsize_fee_estimate [wUtxo, pUtxo] [sampleOutput]
    [(sampleOutput, AddressEncoding.p2wpkh)] AddressEncoding.p2wpkh 1 rfl
    (by decide)).1]
  decide

/-! ### Claim C6 -/

theorem f64roundInt_exact (z : ℤ) (h0 : 0 ≤ z) (h1 : z < 2 ^ 53) :
    f64roundInt z = z := by
  have hp : (2 : ℤ) ^ 53 = 9007199254740992 := by norm_num
  have hpn : (2 : ℕ) ^ 53 = 9007199254740992 := by norm_num
  rw [hp] at h1
  have hle : z.natAbs ≤ 2 ^ 53 := by rw [hpn]; omega
  unfold f64roundInt f64roundNat
  rw [if_neg (by omega : ¬z < 0), if_pos hle, Int.natAbs_of_nonneg h0]

theorem processUtxos_ok_values {ctx : CryptoCtx} {m : String} {fp : ℕ}
    {amap : List (Addr × DerivedAddress)} {utxos : List BlockbookUtxo}
    {l : List (PsbtInput × SignerM)}
    (h : processUtxos ctx m fp amap utxos = Except.ok l) :
    l.map (fun pr => pr.1.witnessUtxo.value) =
      utxos.map (fun u => f64roundInt (u.value : ℤ)) := by
  induction utxos generalizing l with
  | nil =>
      unfold processUtxos at h
      injection h with h1
      subst h1
      rfl
  | cons a rest ih =>
      unfold processUtxos at h
      cases hpa : processUtxo ctx m fp amap a with
      | error ex =>
          rw [hpa] at h
          exact absurd h (by simp)
      | ok pr =>
          rw [hpa] at h
          cases hrest : processUtxos ctx m fp amap rest with
          | error ex =>
              rw [hrest] at h
              exact absurd h (by simp)
          | ok lr =>
              rw [hrest] at h
              injection h with h1
              subst h1
              simp only [List.map_cons]
              rw [(processUtxo_ok_inv hpa).2, ih hrest]

theorem bitLenAux_self_zero (fuel : ℕ) : bitLenAux fuel 0 = 0 := by
  cases fuel <;> rfl

theorem bitLenAux_succ (f n : ℕ) (h0 : n ≠ 0) :
    bitLenAux (f + 1) n = bitLenAux f (n / 2) + 1 := by
  simp only [bitLenAux]
  rw [if_neg h0]

theorem bitLenAux_lt : ∀ fuel n : ℕ, n ≤ fuel → n < 2 ^ bitLenAux fuel n := by
  intro fuel
  induction fuel with
  | zero =>
      intro n hn
      have h0 : n = 0 := Nat.le_zero.mp hn
      subst h0
      decide
  | succ f ih =>
      intro n hn
      by_cases h0 : n = 0
      · subst h0
        rw [bitLenAux_self_zero]
        decide
      · rw [bitLenAux_succ f n h0, pow_succ]
        have hdiv : n / 2 ≤ f := by
          have := Nat.div_lt_self (Nat.pos_of_ne_zero h0)
            (by norm_num : 1 < 2)
          omega
        have hih := ih (n / 2) hdiv
        omega

theorem bitLenAux_ge : ∀ fuel n : ℕ, 1 ≤ n → n ≤ fuel →
    2 ^ (bitLenAux fuel n - 1) ≤ n := by
  intro fuel
  induction fuel with
  | zero =>
      intro n h1 h2
      omega
  | succ f ih =>
      intro n h1 h2
      have h0 : n ≠ 0 := by omega
      rw [bitLenAux_succ f n h0, Nat.add_sub_cancel]
      by_cases hd : n / 2 = 0
      · rw [hd, bitLenAux_self_zero]
        simpa using h1
      · have hd1 : 1 ≤ n / 2 := Nat.pos_of_ne_zero hd
        have hdf : n / 2 ≤ f := by
          have := Nat.div_lt_self (by omega : 0 < n) (by norm_num : 1 < 2)
          omega
        have hih := ih (n / 2) hd1 hdf
        rcases Nat.eq_zero_or_pos (bitLenAux f (n / 2)) with hb | hb
        · rw [hb]
          simpa using h1
        · have hsplit : bitLenAux f (n / 2) =
              (bitLenAux f (n / 2) - 1) + 1 := by omega
          rw [hsplit, pow_succ]
          have h2d : 2 ^ (bitLenAux f (n / 2) - 1) * 2 ≤ (n / 2) * 2 :=
            Nat.mul_le_mul hih le_rfl
          omega

theorem bitLen_lt (n : ℕ) : n < 2 ^ bitLen n := bitLenAux_lt n n le_rfl

theorem bitLen_ge {n : ℕ} (h : 1 ≤ n) : 2 ^ (bitLen n - 1) ≤ n :=
  bitLenAux_ge n n h le_rfl

theorem roundMantissa_ge (n e : ℕ) :
    n / 2 ^ e * 2 ^ e ≤ roundMantissa n e := by
  unfold roundMantissa
  split_ifs <;>
    first
      | exact le_rfl
      | exact Nat.mul_le_mul (Nat.le_succ _) le_rfl

theorem f64roundNat_big {n : ℕ} (h : 2 ^ 53 < n) :
    2 ^ 53 ≤ f64roundNat n := by
  unfold f64roundNat
  rw [if_neg (by omega)]
  have hlt := bitLen_lt n
  have hbl : 54 ≤ bitLen n := by
    by_contra hb
    push_neg at hb
    have : (2 : ℕ) ^ bitLen n ≤ 2 ^ 53 :=
      Nat.pow_le_pow_right (by norm_num) (by omega)
    omega
  have hge := bitLen_ge (by omega : 1 ≤ n)
  have hsplit : bitLen n - 1 = (bitLen n - 53) + 52 := by omega
  rw [hsplit] at hge
  have hq : 2 ^ 52 ≤ n / 2 ^ (bitLen n - 53) := by
    have hdiv : 2 ^ ((bitLen n - 53) + 52) / 2 ^ (bitLen n - 53) ≤
        n / 2 ^ (bitLen n - 53) := Nat.div_le_div_right hge
    rwa [pow_add, Nat.mul_div_cancel_left _
      (pow_pos (by norm_num : (0 : ℕ) < 2) _)] at hdiv
  calc (2 : ℕ) ^ 53 = 2 ^ 52 * 2 ^ 1 := by norm_num
    _ ≤ n / 2 ^ (bitLen n - 53) * 2 ^ (bitLen n - 53) :=
        Nat.mul_le_mul hq (Nat.pow_le_pow_right (by norm_num) (by omega))
    _ ≤ roundMantissa n (bitLen n - 53) := roundMantissa_ge n _

theorem f64roundNat_in_range_exact {n : ℕ}
    (h : f64roundNat n ≤ SATOSHI_MAX) : f64roundNat n = n := by
  by_cases hn : n ≤ 2 ^ 53
  · unfold f64roundNat
    rw [if_pos hn]
  · have hbig := f64roundNat_big (by omega : 2 ^ 53 < n)
    have hmax : SATOSHI_MAX < 2 ^ 53 := by norm_num [SATOSHI_MAX]
    omega

theorem f64roundInt_satoshi {v : ℤ} (h0 : 0 ≤ f64roundInt v)
    (h1 : f64roundInt v ≤ (SATOSHI_MAX : ℤ)) : f64roundInt v = v := by
  unfold f64roundInt at h0 h1 ⊢
  by_cases hv : v < 0
  · rw [if_pos hv] at h0 h1 ⊢
    have hz : f64roundNat v.natAbs = 0 := by omega
    have hnn : v.natAbs ≠ 0 := by
      intro hc
      rw [Int.natAbs_eq_zero] at hc
      omega
    by_cases hb : v.natAbs ≤ 2 ^ 53
    · unfold f64roundNat at hz
      rw [if_pos hb] at hz
      exact absurd hz hnn
    · have hbig := f64roundNat_big (by omega : 2 ^ 53 < v.natAbs)
      omega
  · rw [if_neg hv] at h1 ⊢
    push_neg at hv
    have h1n : f64roundNat v.natAbs ≤ SATOSHI_MAX := by exact_mod_cast h1
    rw [f64roundNat_in_range_exact h1n, Int.natAbs_of_nonneg hv]

theorem addPsbtOutputs_ok_inv {po : List TxOutputRequest}
    {l : List PsbtOutput} (h : addPsbtOutputs po = Except.ok l) :
    l = po.map (fun o => PsbtOutput.mk o.address (f64roundInt o.amountSats)) ∧
      ∀ o ∈ po, satoshiInRange (f64roundInt o.amountSats) := by
  induction po generalizing l with
  | nil =>
      unfold addPsbtOutputs at h
      injection h with h1
      subst h1
      exact ⟨rfl, by simp⟩
  | cons a rest ih =>
      unfold addPsbtOutputs at h
      by_cases hr : satoshiInRange (f64roundInt a.amountSats)
      · rw [if_pos hr] at h
        cases hrest : addPsbtOutputs rest with
        | error ex =>
            rw [hrest] at h
            exact absurd h (by simp [Except.map])
        | ok lr =>
            rw [hrest] at h
            simp only [Except.map] at h
            injection h with h1
            subst h1
            obtain ⟨he, hall⟩ := ih hrest
            refine ⟨by rw [he]; rfl, ?_⟩
            intro o ho
            cases ho with
            | head => exact hr
            | tail _ ho2 => exact hall o ho2
      · rw [if_neg hr] at h
        exact absurd h (by simp)

theorem checkWitnessValues_ok_inv {l : List PsbtInput}
    (h : checkWitnessValues l = Except.ok ()) :
    ∀ i ∈ l, satoshiInRange i.witnessUtxo.value := by
  induction l with
  | nil =>
      intro i hi
      exact absurd hi (by simp)
  | cons a rest ih =>
      unfold checkWitnessValues at h
      by_cases hr : satoshiInRange a.witnessUtxo.value
      · rw [if_pos hr] at h
        intro i hi
        cases hi with
        | head => exact hr
        | tail _ hi2 => exact ih h i hi2
      · rw [if_neg hr] at h
        exact absurd h (by simp)

/-- C6: all fee, change and balance arithmetic is exact `bigint` arithmetic,
and on every successful build the monetary values placed in the assembled
transaction and reported in `TxBuildResult` equal the exact integer inputs.
The `Number(...)` conversions at the PSBT boundary (lines 204 and 227) are
guarded by the library validation (typeforce `types.Satoshi` — an integer in
`[0, 21 * 1e14]` — applied by `Transaction.addOutput` and by
`hashForWitnessV0` during signing): any amount whose conversion could round
lies above that bound, makes the build throw, and never reaches an assembled
transaction, so every value that is placed converts losslessly. -/
theorem build_amounts_exact (ctx : CryptoCtx) (e : ℕ) (m : String)
    (utxos : List BlockbookUtxo) (outputs : List TxOutputRequest)
    (amap : List (Addr × DerivedAddress)) (ca : Option Addr) (fr : ℚ)
    (r : TxBuildResult) (tx : FinalTx)
    (h : buildSignedTransactionCore ctx e m utxos outputs amap ca fr =
      Except.ok (r, tx)) :
    tx.outs.map (fun o => o.value) = r.outputs.map (fun o => o.amountSats) ∧
      tx.ins.map (fun i => i.witnessUtxo.value) =
        utxos.map (fun u => (u.value : ℤ)) ∧
      r.totalInput = inputTotalOf utxos ∧
      r.totalOutput = sumAmounts r.outputs ∧
      r.totalOutput + r.feeSats = r.totalInput := by
  obtain ⟨hne, owt, po, cv, inputData, hcls, hplan, hproc, hro, hto, hfee,
    hti, hco, hins, houts, hchk⟩ := buildCore_ok_inv h
  obtain ⟨htxouts, hrange⟩ := addPsbtOutputs_ok_inv houts
  have hwit := checkWitnessValues_ok_inv hchk
  have hvals : tx.ins.map (fun i => i.witnessUtxo.value) =
      utxos.map (fun u => f64roundInt (u.value : ℤ)) := by
    rw [hins, List.map_map]
    have hcomp : ((fun i => i.witnessUtxo.value) ∘
        (fun (pr : PsbtInput × SignerM) => pr.1)) =
        (fun pr => pr.1.witnessUtxo.value) := rfl
    rw [hcomp]
    exact processUtxos_ok_values hproc
  refine ⟨?_, ?_, hti, by rw [hto, hro], by rw [hto, hfee, hti]; ring⟩
  · rw [htxouts, hro, List.map_map]
    refine List.map_congr_left (fun o ho => ?_)
    simp only [Function.comp]
    obtain ⟨hr0, hr1⟩ := hrange o ho
    exact f64roundInt_satoshi hr0 hr1
  · rw [hvals]
    refine List.map_congr_left (fun u hu => ?_)
    have hmem : f64roundInt (u.value : ℤ) ∈
        tx.ins.map (fun i => i.witnessUtxo.value) := by
      rw [hvals]
      exact List.mem_map_of_mem _ hu
    obtain ⟨i, hi, hiv⟩ := List.mem_map.mp hmem
    obtain ⟨hr0, hr1⟩ := hiv ▸ hwit i hi
    exact f64roundInt_satoshi hr0 hr1

/-- Fallback transaction for `okValue`. -/
def dummyTx : FinalTx := ⟨[], [], []⟩

/-- The sample build, with the assembled transaction exposed. -/
def sampleCore : Except BuildError (TxBuildResult × FinalTx) :=
  buildSignedTransactionCore trivialCtx 0 "m" [wUtxo] [sampleOutput] [] none 1

/-- The result/transaction pair of `sampleCore`. -/
def sampleCorePair : TxBuildResult × FinalTx :=
  okValue sampleCore (dummyResult, dummyTx)

/-- Witness for C6: the sample build succeeds and the values placed in the
assembled transaction equal the exact integer inputs. -/
theorem build_amounts_exact_witness :
    sampleCore = Except.ok sampleCorePair ∧
      sampleCorePair.2.outs.map (fun o => o.value) =
        sampleCorePair.1.outputs.map (fun o => o.amountSats) :=
  ⟨rfl,
    (build_amounts_exact trivialCtx 0 "m" [wUtxo] [sampleOutput] [] none 1
      sampleCorePair.1 sampleCorePair.2 rfl).1⟩

/-! ### Discovery support lemmas -/

theorem deriveWalletFromMnemonic_btc (ctx : CryptoCtx) (m : String)
    (hval : ctx.validateMnemonic m = true) (rc cc : ℕ) :
    deriveWalletFromMnemonic ctx m rc cc "btc" =
      Except.ok (deriveWalletPure ctx m rc cc btcConfig) := by
  unfold deriveWalletFromMnemonic
  rw [hval]
  simp [NETWORKS]

theorem deriveWalletFromMnemonic_ok_inv {ctx : CryptoCtx} {m : String}
    {rc cc : ℕ} {net : String} {cfg : NetworkConfig} {w : WalletDerivation}
    (hnet : NETWORKS net = some cfg)
    (h : deriveWalletFromMnemonic ctx m rc cc net = Except.ok w) :
    w = deriveWalletPure ctx m rc cc cfg := by
  unfold deriveWalletFromMnemonic at h
  by_cases hv : ctx.validateMnemonic m = false
  · rw [if_pos hv] at h
    exact absurd h (by simp)
  · rw [if_neg hv, hnet] at h
    injection h with h1
    exact h1.symm

theorem findMax_nil (ca : List DerivedAddress) :
    findMaxUsedIndices [] ca = ⟨-1, -1, -1, -1⟩ := rfl

theorem countReceive_mk_ranges (f g : ℕ → DerivedAddress) (rc cc : ℕ)
    (hf : ∀ i, (f i).type = AddressType.receive)
    (hg : ∀ i, (g i).type = AddressType.change) :
    countReceive ((List.range rc).map f ++ (List.range cc).map g) = rc := by
  unfold countReceive
  rw [List.countP_append, List.countP_map, List.countP_map]
  have h1 : ∀ a ∈ List.range rc,
      ((fun d => decide (d.type = AddressType.receive)) ∘ f) a = true :=
    fun a _ => by simp [Function.comp, hf a]
  have h2 : ∀ a ∈ List.range cc,
      ¬((fun d => decide (d.type = AddressType.receive)) ∘ g) a = true :=
    fun a _ => by simp [Function.comp, hg a]
  rw [List.countP_eq_length.mpr h1, List.countP_eq_zero.mpr h2,
    List.length_range]
  omega

theorem countChange_mk_ranges (f g : ℕ → DerivedAddress) (rc cc : ℕ)
    (hf : ∀ i, (f i).type = AddressType.receive)
    (hg : ∀ i, (g i).type = AddressType.change) :
    countChange ((List.range rc).map f ++ (List.range cc).map g) = cc := by
  unfold countChange
  rw [List.countP_append, List.countP_map, List.countP_map]
  have h1 : ∀ a ∈ List.range rc,
      ¬((fun d => decide (d.type = AddressType.change)) ∘ f) a = true :=
    fun a _ => by simp [Function.comp, hf a]
  have h2 : ∀ a ∈ List.range cc,
      ((fun d => decide (d.type = AddressType.change)) ∘ g) a = true :=
    fun a _ => by simp [Function.comp, hg a]
  rw [List.countP_eq_zero.mpr h1, List.countP_eq_length.mpr h2,
    List.length_range]
  omega

theorem counts_pure_btc (ctx : CryptoCtx) (m : String) (rc cc : ℕ) :
    countReceive (deriveWalletPure ctx m rc cc btcConfig).segwitAccount.addresses = rc ∧
    countChange (deriveWalletPure ctx m rc cc btcConfig).segwitAccount.addresses = cc ∧
    countReceive (deriveWalletPure ctx m rc cc btcConfig).legacyAccount.addresses = rc ∧
    countChange (deriveWalletPure ctx m rc cc btcConfig).legacyAccount.addresses = cc :=
  ⟨countReceive_mk_ranges _ _ rc cc (fun _ => rfl) (fun _ => rfl),
    countChange_mk_ranges _ _ rc cc (fun _ => rfl) (fun _ => rfl),
    countReceive_mk_ranges _ _ rc cc (fun _ => rfl) (fun _ => rfl),
    countChange_mk_ranges _ _ rc cc (fun _ => rfl) (fun _ => rfl)⟩

theorem discoveryLoop_zero_btc (ctx : CryptoCtx) (m : String)
    (txs : List BlockbookTransactionM) (g mA cc : ℕ)
    (hval : ctx.validateMnemonic m = true) :
    discoveryLoop ctx m txs g mA "btc" 0 cc =
      Except.ok
        (⟨(deriveWalletPure ctx m cc cc btcConfig).segwitAccount.addresses,
          (deriveWalletPure ctx m cc cc btcConfig).legacyAccount.addresses⟩,
          false, cc) := by
  simp only [discoveryLoop, deriveWalletFromMnemonic_btc ctx m hval]

theorem discoveryLoop_step_btc (ctx : CryptoCtx) (m : String)
    (txs : List BlockbookTransactionM) (g mA : ℕ) (fuel cc : ℕ)
    (hval : ctx.validateMnemonic m = true) :
    discoveryLoop ctx m txs g mA "btc" (fuel + 1) cc =
      (let mx := findMaxUsedIndices txs
          ((deriveWalletPure ctx m cc cc btcConfig).segwitAccount.addresses ++
            (deriveWalletPure ctx m cc cc btcConfig).legacyAccount.addresses)
       let maxRequired : ℤ :=
         max (max (max (mx.segwitReceive + g + 1) (mx.segwitChange + g + 1))
           (max (mx.legacyReceive + g + 1) (mx.legacyChange + g + 1)))
           (mA : ℤ)
       if maxRequired ≤ (cc : ℤ) then
         Except.ok
           (⟨(deriveWalletPure ctx m
                (max (mA : ℤ) (mx.segwitReceive + g + 1)).toNat
                (max (mA : ℤ) (mx.segwitChange + g + 1)).toNat
                btcConfig).segwitAccount.addresses,
             (deriveWalletPure ctx m
                (max (mA : ℤ) (mx.legacyReceive + g + 1)).toNat
                (max (mA : ℤ) (mx.legacyChange + g + 1)).toNat
                btcConfig).legacyAccount.addresses⟩, true, cc)
       else
         discoveryLoop ctx m txs g mA "btc" fuel
           (min (maxRequired * 2) 10000).toNat) := by
  simp only [discoveryLoop, deriveWalletFromMnemonic_btc ctx m hval]

theorem discoveryLoop_empty_step (ctx : CryptoCtx) (m : String) (g mA : ℕ)
    (fuel cc : ℕ) (hval : ctx.validateMnemonic m = true) :
    discoveryLoop ctx m [] g mA "btc" (fuel + 1) cc =
      if max (g : ℤ) (mA : ℤ) ≤ (cc : ℤ) then
        Except.ok
          (⟨(deriveWalletPure ctx m (max (mA : ℤ) (g : ℤ)).toNat
              (max (mA : ℤ) (g : ℤ)).toNat btcConfig).segwitAccount.addresses,
            (deriveWalletPure ctx m (max (mA : ℤ) (g : ℤ)).toNat
              (max (mA : ℤ) (g : ℤ)).toNat btcConfig).legacyAccount.addresses⟩,
            true, cc)
      else
        discoveryLoop ctx m [] g mA "btc" fuel
          (min (max (g : ℤ) (mA : ℤ) * 2) 10000).toNat := by
  have hreq : ∀ x : ℤ, (-1 : ℤ) + x + 1 = x := fun x => by ring
  simp only [discoveryLoop, deriveWalletFromMnemonic_btc ctx m hval,
    findMax_nil, hreq, max_self]

theorem discovery_empty_result (ctx : CryptoCtx) (m : String)
    (hval : ctx.validateMnemonic m = true) (g mA : ℕ)
    (hg : g ≤ 10000) (hmA : mA ≤ 10000) :
    deriveWalletWithDiscovery ctx m [] g mA "btc" =
      Except.ok
        ⟨(deriveWalletPure ctx m (max mA g) (max mA g)
            btcConfig).segwitAccount.addresses,
          (deriveWalletPure ctx m (max mA g) (max mA g)
            btcConfig).legacyAccount.addresses⟩ := by
  have hco : (max (mA : ℤ) (g : ℤ)).toNat = max mA g := by
    rw [← Nat.cast_max, Int.toNat_natCast]
  unfold deriveWalletWithDiscovery deriveWalletWithDiscoveryAux
  rw [show (10 : ℕ) = 9 + 1 from rfl,
    discoveryLoop_empty_step ctx m g mA 9 (max mA 100) hval]
  by_cases hc : max (g : ℤ) (mA : ℤ) ≤ ((max mA 100 : ℕ) : ℤ)
  · rw [if_pos hc, hco]
    simp [Except.map]
  · rw [if_neg hc]
    have hnn : (0 : ℤ) ≤ min (max (g : ℤ) (mA : ℤ) * 2) 10000 := by
      refine le_min ?_ (by norm_num)
      have h0 : (0 : ℤ) ≤ max (g : ℤ) (mA : ℤ) :=
        le_trans (Int.natCast_nonneg g) (le_max_left _ _)
      linarith
    have hcast : (((min (max (g : ℤ) (mA : ℤ) * 2) 10000).toNat : ℕ) : ℤ) =
        min (max (g : ℤ) (mA : ℤ) * 2) 10000 := Int.toNat_of_nonneg hnn
    have hcond : max (g : ℤ) (mA : ℤ) ≤
        (((min (max (g : ℤ) (mA : ℤ) * 2) 10000).toNat : ℕ) : ℤ) := by
      rw [hcast]
      refine le_min ?_ ?_
      · have h0 : (0 : ℤ) ≤ max (g : ℤ) (mA : ℤ) :=
          le_trans (Int.natCast_nonneg g) (le_max_left _ _)
        linarith
      · exact max_le (by exact_mod_cast hg) (by exact_mod_cast hmA)
    rw [show (9 : ℕ) = 8 + 1 from rfl,
      discoveryLoop_empty_step ctx m g mA 8 _ hval, if_pos hcond, hco]
    simp [Except.map]

/-! ### Claim C8 -/

/-- The best-effort address set derived at the 10000-address cap. -/
def capResult : DiscoveryResult :=
  ⟨(deriveWalletPure trivialCtx "m" 10000 10000 btcConfig).segwitAccount.addresses,
    (deriveWalletPure trivialCtx "m" 10000 10000 btcConfig).legacyAccount.addresses⟩

theorem loop_stuck_all (fuel : ℕ) :
    discoveryLoop trivialCtx "m" [] 20000 5 "btc" fuel 10000 =
      discoveryLoop trivialCtx "m" [] 20000 5 "btc" 0 10000 := by
  induction fuel with
  | zero => rfl
  | succ n ih =>
      rw [discoveryLoop_empty_step trivialCtx "m" 20000 5 n 10000 rfl,
        if_neg (by decide),
        show (min (max ((20000 : ℕ) : ℤ) ((5 : ℕ) : ℤ) * 2) 10000).toNat =
          10000 from by decide]
      exact ih

theorem aux_run_noncvg :
    deriveWalletWithDiscoveryAux trivialCtx "m" [] 20000 5 "btc" =
      Except.ok (capResult, false, 10000) := by
  unfold deriveWalletWithDiscoveryAux
  rw [show (max 5 100 : ℕ) = 100 from rfl, show (10 : ℕ) = 9 + 1 from rfl,
    discoveryLoop_empty_step trivialCtx "m" 20000 5 9 100 rfl,
    if_neg (by decide),
    show (min (max ((20000 : ℕ) : ℤ) ((5 : ℕ) : ℤ) * 2) 10000).toNat =
      10000 from by decide,
    loop_stuck_all 9,
    discoveryLoop_zero_btc trivialCtx "m" [] 20000 5 10000 rfl]
  rfl

theorem aux_run_cvg :
    deriveWalletWithDiscoveryAux trivialCtx "m" [] 9999 10000 "btc" =
      Except.ok (capResult, true, 10000) := by
  unfold deriveWalletWithDiscoveryAux
  rw [show (max 10000 100 : ℕ) = 10000 from rfl,
    show (10 : ℕ) = 9 + 1 from rfl,
    discoveryLoop_empty_step trivialCtx "m" 9999 10000 9 10000 rfl,
    if_pos (by decide),
    show (max ((10000 : ℕ) : ℤ) ((9999 : ℕ) : ℤ)).toNat = 10000 from by
      decide]
  rfl

theorem discoveryLoop_false_inv {ctx : CryptoCtx} {m : String}
    {txs : List BlockbookTransactionM} {g mA : ℕ} {net : String}
    {cfg : NetworkConfig} (hnet : NETWORKS net = some cfg) :
    ∀ (fuel cc₀ : ℕ) (res : DiscoveryResult) (cc : ℕ),
      discoveryLoop ctx m txs g mA net fuel cc₀ =
        Except.ok (res, false, cc) →
      res = ⟨(deriveWalletPure ctx m cc cc cfg).segwitAccount.addresses,
        (deriveWalletPure ctx m cc cc cfg).legacyAccount.addresses⟩ := by
  intro fuel
  induction fuel with
  | zero =>
      intro cc₀ res cc h
      unfold discoveryLoop at h
      cases h1 : deriveWalletFromMnemonic ctx m cc₀ cc₀ net with
      | error e => rw [h1] at h; exact absurd h (by simp)
      | ok w =>
          rw [h1] at h
          injection h with h2
          injection h2 with hres h3
          injection h3 with hb hcc
          subst hres hcc
          rw [deriveWalletFromMnemonic_ok_inv hnet h1]
  | succ n ih =>
      intro cc₀ res cc h
      unfold discoveryLoop at h
      cases h1 : deriveWalletFromMnemonic ctx m cc₀ cc₀ net with
      | error e => rw [h1] at h; exact absurd h (by simp)
      | ok w =>
          simp only [h1] at h
          split at h
          · split at h
            · exact absurd h (by simp)
            · split at h
              · exact absurd h (by simp)
              · simp at h
          · exact ih _ res cc h

/-- C8 (amended): when the iteration bound is reached without convergence,
`deriveWalletWithDiscovery` returns the best-effort address set derived at
the final `currentCount` — but the returned value carries no convergence
indication of any kind (the return shape is just the two address lists), so
the caller cannot distinguish this from a converged result. -/
theorem discovery_fallback_silent (ctx : CryptoCtx) (m : String)
    (txs : List BlockbookTransactionM) (g mA : ℕ) (net : String)
    (cfg : NetworkConfig) (res : DiscoveryResult) (cc : ℕ)
    (hnet : NETWORKS net = some cfg)
    (h : deriveWalletWithDiscoveryAux ctx m txs g mA net =
      Except.ok (res, false, cc)) :
    deriveWalletWithDiscovery ctx m txs g mA net = Except.ok res ∧
      res = ⟨(deriveWalletPure ctx m cc cc cfg).segwitAccount.addresses,
        (deriveWalletPure ctx m cc cc cfg).legacyAccount.addresses⟩ := by
  constructor
  · unfold deriveWalletWithDiscovery
    rw [h]
    rfl
  · unfold deriveWalletWithDiscoveryAux at h
    exact discoveryLoop_false_inv hnet 10 (max mA 100) res cc h

/-- Counterexample for C8: a run that exhausts the iteration bound without
converging (gap limit 20000 exceeds the 10000-address cap) returns exactly
the same value as a genuinely converged run with different parameters —
hence no caller-visible indication of non-convergence exists. -/
theorem discovery_nonconvergence_indistinguishable :
    deriveWalletWithDiscoveryAux trivialCtx "m" [] 20000 5 "btc" =
        Except.ok (capResult, false, 10000) ∧
      deriveWalletWithDiscoveryAux trivialCtx "m" [] 9999 10000 "btc" =
        Except.ok (capResult, true, 10000) ∧
      deriveWalletWithDiscovery trivialCtx "m" [] 20000 5 "btc" =
        deriveWalletWithDiscovery trivialCtx "m" [] 9999 10000 "btc" :=
  ⟨aux_run_noncvg, aux_run_cvg, by
    unfold deriveWalletWithDiscovery
    rw [aux_run_noncvg, aux_run_cvg]
    rfl⟩

/-- Witness for C8 (amended): the non-convergent run above indeed returns
the best-effort set derived at the cap, with no flag. -/
theorem discovery_fallback_silent_witness :
    NETWORKS "btc" = some btcConfig ∧
      deriveWalletWithDiscoveryAux trivialCtx "m" [] 20000 5 "btc" =
        Except.ok (capResult, false, 10000) ∧
      deriveWalletWithDiscovery trivialCtx "m" [] 20000 5 "btc" =
        Except.ok capResult ∧
      capResult =
        ⟨(deriveWalletPure trivialCtx "m" 10000 10000
            btcConfig).segwitAccount.addresses,
          (deriveWalletPure trivialCtx "m" 10000 10000
            btcConfig).legacyAccount.addresses⟩ := by
  have h := discovery_fallback_silent trivialCtx "m" [] 20000 5 "btc"
    btcConfig capResult 10000 rfl aux_run_noncvg
  exact ⟨rfl, aux_run_noncvg, h.1, h.2⟩

/-! ### Claim C7 -/

/-- Distinctness of the derived bitcoin addresses: two segwit addresses at
different (chain, index) positions differ, and no legacy address collides
with a segwit one. Real HD derivation satisfies this short of a hash160
collision (the specification's "Uniqueness" property). -/
def SegwitAddrInjective (ctx : CryptoCtx) (m : String) : Prop :=
  (∀ c i c' i' : ℕ, c ≤ 1 → c' ≤ 1 →
    ctx.p2wpkhAddr m 0 c i = ctx.p2wpkhAddr m 0 c' i' → c = c' ∧ i = i') ∧
  (∀ v c i c' i' : ℕ, ctx.p2pkhAddr m 0 v c i ≠ ctx.p2wpkhAddr m 0 c' i')

/-- A synthetic history: one transaction paying the segwit receive address
at index 37. -/
def history37 (ctx : CryptoCtx) (m : String) : BlockbookTransactionM :=
  ⟨"h", [], [⟨some [ctx.p2wpkhAddr m 0 0 37], none⟩]⟩

theorem foldl_lookup_nomatch (l : List DerivedAddress) (a : Addr)
    (acc : Option DerivedAddress) (h : ∀ d ∈ l, d.address ≠ a) :
    l.foldl (fun acc d => if d.address = a then some d else acc) acc = acc := by
  induction l generalizing acc with
  | nil => rfl
  | cons x xs ih =>
      rw [List.foldl_cons, if_neg (h x (by simp))]
      exact ih acc (fun d hd => h d (List.mem_cons_of_mem x hd))

theorem foldl_lookup_unique (mk : ℕ → DerivedAddress) (a : Addr) (j : ℕ) :
    ∀ (n : ℕ) (acc : Option DerivedAddress), j < n → (mk j).address = a →
      (∀ i, i < n → (mk i).address = a → i = j) →
      ((List.range n).map mk).foldl
        (fun acc d => if d.address = a then some d else acc) acc =
        some (mk j) := by
  intro n
  induction n with
  | zero => intro acc hj _ _; omega
  | succ n ih =>
      intro acc hj hja huniq
      rw [List.range_succ, List.map_append, List.foldl_append]
      by_cases hn : j = n
      · subst hn
        simp only [List.map_cons, List.map_nil, List.foldl_cons,
          List.foldl_nil]
        rw [if_pos hja]
      · have hne : (mk n).address ≠ a := fun hcon =>
          hn (huniq n (by omega) hcon).symm
        simp only [List.map_cons, List.map_nil, List.foldl_cons,
          List.foldl_nil]
        rw [if_neg hne]
        exact ih acc (by omega) hja (fun i hi ha => huniq i (by omega) ha)

theorem mapGetLast_history_hit (ctx : CryptoCtx) (m : String) (rc cc : ℕ)
    (hinj : SegwitAddrInjective ctx m) (h37 : 37 < rc) :
    mapGetLast
        ((deriveWalletPure ctx m rc cc btcConfig).segwitAccount.addresses ++
          (deriveWalletPure ctx m rc cc btcConfig).legacyAccount.addresses)
        (ctx.p2wpkhAddr m 0 0 37) =
      some (deriveSegwitAddress ctx m btcConfig 0 37 AddressType.receive) := by
  have hseg : (deriveWalletPure ctx m rc cc btcConfig).segwitAccount.addresses =
      (List.range rc).map
        (fun i => deriveSegwitAddress ctx m btcConfig 0 i AddressType.receive) ++
      (List.range cc).map
        (fun i => deriveSegwitAddress ctx m btcConfig 1 i AddressType.change) :=
    rfl
  have hleg : (deriveWalletPure ctx m rc cc btcConfig).legacyAccount.addresses =
      (List.range rc).map
        (fun i => deriveLegacyAddress ctx m btcConfig 0 i AddressType.receive) ++
      (List.range cc).map
        (fun i => deriveLegacyAddress ctx m btcConfig 1 i AddressType.change) :=
    rfl
  unfold mapGetLast
  rw [hseg, hleg, List.foldl_append, List.foldl_append, List.foldl_append]
  rw [foldl_lookup_unique
    (fun i => deriveSegwitAddress ctx m btcConfig 0 i AddressType.receive)
    (ctx.p2wpkhAddr m 0 0 37) 37 rc none h37 rfl
    (fun i _ ha => (hinj.1 0 i 0 37 (by omega) (by omega) ha).2)]
  rw [foldl_lookup_nomatch _ _ _ (fun d hd => ?_)]
  rw [foldl_lookup_nomatch _ _ _ (fun d hd => ?_)]
  rw [foldl_lookup_nomatch _ _ _ (fun d hd => ?_)]
  · obtain ⟨i, _, rfl⟩ := List.mem_map.mp hd
    intro hcon
    have := (hinj.1 1 i 0 37 (by omega) (by omega) hcon).1
    omega
  · obtain ⟨i, _, rfl⟩ := List.mem_map.mp hd
    exact hinj.2 _ _ _ 0 37
  · obtain ⟨i, _, rfl⟩ := List.mem_map.mp hd
    exact hinj.2 _ _ _ 0 37

theorem findMax_history37 (ctx : CryptoCtx) (m : String) (rc cc : ℕ)
    (hinj : SegwitAddrInjective ctx m) (h37 : 37 < rc) :
    findMaxUsedIndices [history37 ctx m]
        ((deriveWalletPure ctx m rc cc btcConfig).segwitAccount.addresses ++
          (deriveWalletPure ctx m rc cc btcConfig).legacyAccount.addresses) =
      ⟨37, -1, -1, -1⟩ := by
  unfold findMaxUsedIndices history37
  simp only [List.foldl_cons, List.foldl_nil]
  unfold scanEntry
  simp only [List.foldl_cons, List.foldl_nil]
  rw [mapGetLast_history_hit ctx m rc cc hinj h37]
  simp [updateMaxIndex, deriveSegwitAddress]

/-- C7 (amended): given an empty transaction history, discovery returns
exactly `max(minAddresses, gapLimit)` receive and `max(minAddresses,
gapLimit)` change addresses per chain (not `minAddresses`: the gap-limit
window past index −1 already demands `gapLimit` addresses); given a history
whose highest used segwit receive index is 37 with `gapLimit = 20`, it
returns exactly 58 (hence at least 58) receive addresses. -/
theorem discovery_gap_counts (ctx : CryptoCtx) (m : String)
    (hval : ctx.validateMnemonic m = true) :
    (∀ g mA : ℕ, g ≤ 10000 → mA ≤ 10000 →
      (deriveWalletWithDiscovery ctx m [] g mA "btc").map
        (fun res => (countReceive res.segwitAddresses,
          countChange res.segwitAddresses,
          countReceive res.legacyAddresses,
          countChange res.legacyAddresses)) =
        Except.ok (max mA g, max mA g, max mA g, max mA g)) ∧
    (SegwitAddrInjective ctx m →
      (deriveWalletWithDiscovery ctx m [history37 ctx m] 20 5 "btc").map
        (fun res => countReceive res.segwitAddresses) = Except.ok 58) := by
  constructor
  · intro g mA hg hmA
    rw [discovery_empty_result ctx m hval g mA hg hmA]
    obtain ⟨c1, c2, c3, c4⟩ := counts_pure_btc ctx m (max mA g) (max mA g)
    simp [Except.map, c1, c2, c3, c4]
  · intro hinj
    unfold deriveWalletWithDiscovery deriveWalletWithDiscoveryAux
    rw [show (max 5 100 : ℕ) = 100 from rfl, show (10 : ℕ) = 9 + 1 from rfl,
      discoveryLoop_step_btc ctx m [history37 ctx m] 20 5 9 100 hval]
    simp only [findMax_history37 ctx m 100 100 hinj (by omega)]
    norm_num
    rw [show Int.toNat 58 = 58 from rfl, show Int.toNat 20 = 20 from rfl]
    simp [Except.map, (counts_pure_btc ctx m 58 20).1]

/-- Counterexample for C7: with the default parameters (`gapLimit = 20`,
`minAddresses = 5`) and an empty history, discovery returns 20 receive
addresses per chain — not "exactly `minAddresses`" (5) as claimed. -/
theorem discovery_empty_not_min :
    (deriveWalletWithDiscovery trivialCtx "m" [] 20 5 "btc").map
        (fun res => countReceive res.segwitAddresses) = Except.ok 20 ∧
      (20 : ℕ) ≠ 5 := by
  refine ⟨?_, by decide⟩
  rw [discovery_empty_result trivialCtx "m" rfl 20 5 (by norm_num)
    (by norm_num)]
  have := (counts_pure_btc trivialCtx "m" (max 5 20) (max 5 20)).1
  rw [show (max 5 20 : ℕ) = 20 from rfl] at this
  simp [Except.map, this]

/-- A crypto context whose segwit address derivation is injective in
(chain, index), with legacy addresses disjoint from segwit ones. -/
def ctxInj : CryptoCtx :=
  { trivialCtx with
    p2wpkhAddr := fun _ _ chain index =>
      ⟨"w", some ⟨"bc", 2 * index + chain, []⟩, none⟩
    p2pkhAddr := fun _ _ _ chain index =>
      ⟨"l", none, some ⟨2 * index + chain, []⟩⟩ }

theorem ctxInj_injective (m : String) : SegwitAddrInjective ctxInj m := by
  constructor
  · intro c i c' i' hc hc' heq
    simp only [ctxInj, Addr.mk.injEq, Option.some.injEq,
      Bech32Decoded.mk.injEq] at heq
    omega
  · intro v c i c' i' heq
    simp [ctxInj] at heq

/-- Witness for C7 (amended): with the injective context, empty history
gives 20 addresses per chain for `(gapLimit, minAddresses) = (20, 5)`, and
the index-37 history gives exactly 58 segwit receive addresses. -/
theorem discovery_gap_counts_witness :
    ctxInj.validateMnemonic "m" = true ∧
      (deriveWalletWithDiscovery ctxInj "m" [] 20 5 "btc").map
        (fun res => (countReceive res.segwitAddresses,
          countChange res.segwitAddresses,
          countReceive res.legacyAddresses,
          countChange res.legacyAddresses)) = Except.ok (20, 20, 20, 20) ∧
      (deriveWalletWithDiscovery ctxInj "m" [history37 ctxInj "m"] 20 5
          "btc").map (fun res => countReceive res.segwitAddresses) =
        Except.ok 58 := by
  have h := discovery_gap_counts ctxInj "m" rfl
  have h1 := h.1 20 5 (by norm_num) (by norm_num)
  rw [show (max 5 20 : ℕ) = 20 from rfl] at h1
  exact ⟨rfl, h1, h.2 (ctxInj_injective "m")⟩

end BrokenWallet
